import Mathlib

/-!
Verification development for the legal-bundle compiler core (`bundle.rs`).

The Rust source is shallowly embedded: `usize` values become `ℕ` (the code
under scrutiny never overflows 64 bits on the inputs considered, and Rust
`usize` subtraction appearing in the source only ever subtracts from positive
values, matching truncated `ℕ` subtraction), `i64` becomes `ℤ`, byte vectors
become `List ℕ`, strings become `String`.  `f32` arithmetic (which the source
uses in `estimate_toc_pages`) is modelled exactly by round-to-nearest-even
binary32 rounding implemented over integer arithmetic.  File-system and
rendering side effects are modelled by explicit oracle parameters.
-/

/-! ### Data model (`bundle.rs` lines 11-110) -/

/-- Entry in the Table of Contents (`TOCEntry`). -/
structure TOCEntry where
  label : String
  description : String
  start_page : ℕ
  end_page : ℕ
  page_count : ℕ
  deriving DecidableEq

/-- Pagination style configuration (`PaginationStyle`); `font_size` is an `f32`
whose exact value is carried as a rational. -/
structure PaginationStyle where
  format : String
  position : String
  font_size : ℚ
  deriving DecidableEq

/-- `PaginationStyle::default()`. -/
def PaginationStyle.default : PaginationStyle :=
  { format := "Page X of Y", position := "top-right", font_size := 10 }

/-- Sub-page numbering for late inserts (`SubPageNumber`). -/
structure SubPageNumber where
  base_page : ℕ
  suffix : Char
  deriving DecidableEq

/-- `SubPageNumber::new`: the Rust code computes `(b'A' + (index as u8).min(25)) as char`.
The `usize → u8` cast truncates to `index % 256` *before* the clamp at 25. -/
def SubPageNumber.new (base_page : ℕ) (index : ℕ) : SubPageNumber :=
  { base_page := base_page, suffix := Char.ofNat (65 + Nat.min (index % 256) 25) }

/-- `SubPageNumber::to_string`, producing e.g. `"45A"`. -/
def SubPageNumber.to_string (s : SubPageNumber) : String :=
  toString s.base_page ++ String.singleton s.suffix

/-- Late insert mode for bundle compilation (`LateInsertMode`). -/
inductive LateInsertMode where
  | Repaginate
  | SubNumber
  deriving DecidableEq

/-- `LateInsertMode::default()`. -/
def LateInsertMode.default : LateInsertMode := .Repaginate

/-- Validation error record (`ValidationError`). -/
structure ValidationError where
  error_type : String
  message : String
  page : Option ℕ
  expected : Option ℕ
  actual : Option ℕ
  deriving DecidableEq

/-- Validation result (`ValidationResult`). -/
structure ValidationResult where
  is_valid : Bool
  errors : List ValidationError
  warnings : List String
  deriving DecidableEq

/-- Result of bundle compilation (`CompileResult`). -/
structure CompileResult where
  success : Bool
  pdf_path : Option String
  toc_entries : List TOCEntry
  total_pages : ℕ
  errors : List String
  warnings : List String
  deriving DecidableEq

/-- Document to include in a bundle (`BundleDocument`). -/
structure BundleDocument where
  id : String
  file_path : String
  label : String
  description : String
  page_count : ℕ
  deriving DecidableEq

/-! ### TOC planner (`calculate_toc_preview`, lines 113-133) -/

/-- The loop of `calculate_toc_preview`: `i` is the iteration index and
`current_page` the running page counter. -/
def calculate_toc_preview_go : List BundleDocument → ℕ → ℕ → List TOCEntry
  | [], _, _ => []
  | doc :: rest, i, current_page =>
    let start_page := current_page
    let end_page := current_page + doc.page_count - 1
    { label := "Tab " ++ toString (i + 1),
      description := doc.description,
      start_page := start_page,
      end_page := end_page,
      page_count := doc.page_count } ::
      calculate_toc_preview_go rest (i + 1) (end_page + 1)

/-- `calculate_toc_preview`: documents start after the TOC pages. -/
def calculate_toc_preview (documents : List BundleDocument) (toc_page_count : ℕ) :
    List TOCEntry :=
  calculate_toc_preview_go documents 0 (toc_page_count + 1)

/-! ### Exact binary32 model for `estimate_toc_pages` (lines 136-140)

The Rust source computes `(((document_count as f32) / 25.0).ceil() as usize).max(1)`.
Both the `usize → f32` conversion and the division round to the nearest `f32`
(ties to even).  We model a nonnegative `f32` exactly as a dyadic pair
`(m, e)` with value `m * 2 ^ e`, and implement the rounding with pure integer
arithmetic so that it evaluates inside the kernel. -/

/-- Fuel-driven ⌊log₂⌋ on naturals (`natLog2 n = ⌊log₂ n⌋` for `1 ≤ n < 2 ^ 64`). -/
def natLog2Aux : ℕ → ℕ → ℕ
  | 0, _ => 0
  | fuel + 1, n => if n ≤ 1 then 0 else natLog2Aux fuel (n / 2) + 1

/-- ⌊log₂ n⌋ for the operand sizes arising here (`n < 2 ^ 64`). -/
def natLog2 (n : ℕ) : ℕ := natLog2Aux 64 n

/-- ⌊log₂ (a / b)⌋ for a positive fraction `a / b`. -/
def floorLog2Frac (a b : ℕ) : ℤ :=
  let k : ℤ := (natLog2 a : ℤ) - (natLog2 b : ℤ)
  let le : Bool := if 0 ≤ k then decide (b * 2 ^ k.toNat ≤ a) else decide (b ≤ a * 2 ^ (-k).toNat)
  if le then k else k - 1

/-- Round the nonnegative fraction `a / b` (with `b ≠ 0`) to the nearest
binary32 value, ties to even, returned as a dyadic pair `(m, e)` with value
`m * 2 ^ e` and `2 ^ 23 ≤ m ≤ 2 ^ 24` for nonzero inputs. -/
def roundF32Frac (a b : ℕ) : ℕ × ℤ :=
  if a = 0 then (0, 0)
  else
    let E : ℤ := floorLog2Frac a b
    -- scaled = (a / b) * 2 ^ (23 - E), as the fraction num / den
    let num : ℕ := if 0 ≤ 23 - E then a * 2 ^ (23 - E).toNat else a
    let den : ℕ := if 0 ≤ 23 - E then b else b * 2 ^ (E - 23).toNat
    let f : ℕ := num / den
    let r : ℕ := num % den
    let m : ℕ :=
      if 2 * r < den then f
      else if den < 2 * r then f + 1
      else if f % 2 = 0 then f else f + 1
    (m, E - 23)

/-- The exact rational value of a dyadic pair. -/
def dyVal (p : ℕ × ℤ) : ℚ := (p.1 : ℚ) * 2 ^ p.2

/-- ⌈m * 2 ^ e⌉ computed with integer arithmetic (`f32::ceil` is exact, and the
subsequent `as usize` cast truncates the already integral value). -/
def dyCeil (p : ℕ × ℤ) : ℕ :=
  if 0 ≤ p.2 then p.1 * 2 ^ p.2.toNat
  else (p.1 + 2 ^ (-p.2).toNat - 1) / 2 ^ (-p.2).toNat

/-- The dyadic pair `(m1, e1)` divided by the natural `b`, as a fraction. -/
def dyDivFrac (m1 : ℕ) (e1 : ℤ) (b : ℕ) : ℕ × ℕ :=
  if 0 ≤ e1 then (m1 * 2 ^ e1.toNat, b) else (m1, b * 2 ^ (-e1).toNat)

/-- `estimate_toc_pages`: `(((document_count as f32) / 25.0).ceil() as usize).max(1)`,
with both roundings modelled exactly. -/
def estimate_toc_pages (document_count : ℕ) : ℕ :=
  let entries_per_page : ℕ := 25
  let nRounded : ℕ × ℤ := roundF32Frac document_count 1
  let frac : ℕ × ℕ := dyDivFrac nRounded.1 nRounded.2 entries_per_page
  let quotient : ℕ × ℤ := roundF32Frac frac.1 frac.2
  (dyCeil quotient).max 1

/-! ### TOC renderer page count (`generate_toc_pdf`, lines 143-215)

`generate_toc_pdf` starts with one page and adds a page before entry `i`
whenever `i > 0 && i % 25 == 0`; on success it returns that count.  The
rendering and file I/O are modelled by an oracle in the pipeline below; the
returned page count is this pure function of the entry list. -/

/-- Number of pages produced by `generate_toc_pdf` for a given entry list. -/
def generate_toc_pdf_page_count (entries : List TOCEntry) : ℕ :=
  1 + (List.range entries.length).countP (fun i => decide (0 < i) && decide (i % 25 = 0))

/-! ### Late-insert sub-numbering (`calculate_toc_with_subnumbers`, lines 598-640) -/

/-- Loop of `calculate_toc_with_subnumbers`.  In the Rust source the late-insert
test is `insert_after.map(|pos| i > pos && i <= pos + insert_count)`; inside the
late branch `insert_after.unwrap()` is total, modelled by `getD 0`. -/
def calculate_toc_with_subnumbers_go («insert_after» : Option ℕ) (insert_count : ℕ) :
    List BundleDocument → ℕ → ℕ → List TOCEntry
  | [], _, _ => []
  | doc :: rest, i, current_page =>
    let is_late_insert : Bool :=
      match insert_after with
      | some pos => decide (pos < i) && decide (i ≤ pos + insert_count)
      | none => false
    let entry : TOCEntry :=
      if is_late_insert then
        let base_page := current_page - 1
        let insert_index := i - insert_after.getD 0 - 1
        let sub_page := SubPageNumber.new base_page insert_index
        { label := "Tab " ++ toString (insert_after.getD 0 + 1) ++
            String.singleton sub_page.suffix,
          description := doc.description,
          start_page := current_page,
          end_page := current_page + doc.page_count - 1,
          page_count := doc.page_count }
      else
        { label := "Tab " ++ toString (i + 1 - (if is_late_insert then insert_count else 0)),
          description := doc.description,
          start_page := current_page,
          end_page := current_page + doc.page_count - 1,
          page_count := doc.page_count }
    entry :: calculate_toc_with_subnumbers_go insert_after insert_count rest (i + 1)
      (current_page + doc.page_count)

/-- `calculate_toc_with_subnumbers`. -/
def calculate_toc_with_subnumbers (documents : List BundleDocument) (toc_page_count : ℕ)
    («insert_after» : Option ℕ) (insert_count : ℕ) : List TOCEntry :=
  calculate_toc_with_subnumbers_go insert_after insert_count documents 0 (toc_page_count + 1)

/-! ### Pagination validator (`validate_pagination`, lines 643-739) -/

/-- The `pagination_gap` error pushed by `validate_pagination`. -/
def gapError (expected_page actual_start : ℕ) : ValidationError :=
  { error_type := "pagination_gap",
    message := "Pagination gap: expected page " ++ toString expected_page ++
      ", found page " ++ toString actual_start,
    page := some expected_page,
    expected := some expected_page,
    actual := some actual_start }

/-- The `toc_overlap` error pushed by `validate_pagination`. -/
def overlapError (start_page : ℕ) : ValidationError :=
  { error_type := "toc_overlap",
    message := "First document starts on page " ++ toString start_page ++
      ", but TOC needs at least 1 page",
    page := some start_page,
    expected := some 2,
    actual := some start_page }

/-- The `page_count_mismatch` error pushed by `validate_pagination`. -/
def mismatchError (entry : TOCEntry) (calculated_end : ℕ) : ValidationError :=
  { error_type := "page_count_mismatch",
    message := "Tab " ++ entry.label ++ " page count mismatch: " ++
      toString entry.page_count ++ " pages should end at " ++ toString calculated_end ++
      ", but marked as " ++ toString entry.end_page,
    page := some entry.start_page,
    expected := some calculated_end,
    actual := some entry.end_page }

/-- The `total_page_mismatch` error pushed by `validate_pagination`. -/
def totalMismatchError (expected_total actual_pages : ℕ) : ValidationError :=
  { error_type := "total_page_mismatch",
    message := "TOC indicates " ++ toString expected_total ++
      " total pages, but PDF has " ++ toString actual_pages ++ " pages",
    page := none,
    expected := some expected_total,
    actual := some actual_pages }

/-- The body of loop 1 of `validate_pagination` for one entry: at `i = 0` the
running `expected_page` is first replaced by the entry's own start page (after
the `toc_overlap` check); the errors pushed for this entry are returned
together with the effective `expected_page` used for the gap check. -/
def validate_pagination_step (entry : TOCEntry) (i expected_page : ℕ) :
    List ValidationError × ℕ :=
  let stateZero : List ValidationError × ℕ :=
    if i = 0 then
      ((if entry.start_page < 2 then [overlapError entry.start_page] else []),
        entry.start_page)
    else ([], expected_page)
  let gaps :=
    if stateZero.2 < entry.start_page then [gapError stateZero.2 entry.start_page] else []
  let calculated_end := entry.start_page + entry.page_count - 1
  let mismatches :=
    if calculated_end ≠ entry.end_page then [mismatchError entry calculated_end] else []
  (stateZero.1 ++ gaps ++ mismatches, stateZero.2)

/-- Loop 1 of `validate_pagination` over the entries, carrying the iteration
index, the running `expected_page`, and the accumulated errors. -/
def validate_pagination_go : List TOCEntry → ℕ → ℕ → List ValidationError →
    List ValidationError
  | [], _, _, errors => errors
  | entry :: rest, i, expected_page, errors =>
    validate_pagination_go rest (i + 1) (entry.end_page + 1)
      (errors ++ (validate_pagination_step entry i expected_page).1)

/-- `validate_pagination`.  The optional PDF at `pdf_path` is modelled by
`pdf_load`: `none` when the file does not exist, `some (.error e)` when
`lopdf::Document::load` fails with error `e`, and `some (.ok n)` when it
succeeds on a document of `n` pages. -/
def validate_pagination (toc_entries : List TOCEntry)
    (pdf_load : Option (Except String ℕ)) : ValidationResult :=
  let errors := validate_pagination_go toc_entries 0 1 []
  let checked : List ValidationError × List String :=
    match pdf_load with
    | none => (errors, [])
    | some (.ok actual_pages) =>
      let expected_total := ((toc_entries.getLast?).map (·.end_page)).getD 0
      (errors ++
        (if actual_pages ≠ expected_total then [totalMismatchError expected_total actual_pages]
         else []), [])
    | some (.error e) => (errors, ["Could not validate PDF: " ++ e])
  let errors := checked.1
  let warnings := checked.2 ++
    (toc_entries.filter (fun e => decide (100 < e.page_count))).map (fun e =>
      "Tab " ++ e.label ++ " has " ++ toString e.page_count ++
        " pages - consider splitting for easier navigation")
  { is_valid := errors.isEmpty, errors := errors, warnings := warnings }

/-! ### Compilation pipeline (`compile_bundle`, lines 485-595)

The pipeline's effects are modelled by an environment of oracles: `file_exists`
answers the step-1 existence checks; the `Option String` fields are `none` when
the corresponding I/O succeeds and `some e` when it fails with the fatal error
string `e` (the oracle carries the fully formatted message).  The trace of
attempted pipeline steps is returned alongside the result. -/

/-- One attempted pipeline step of `compile_bundle`. -/
inductive PipelineStep where
  | createDir
  | tocRender
  | stamp (i : ℕ)
  | merge
  | bookmarks
  | cleanup
  deriving DecidableEq

/-- Effect oracles for one `compile_bundle` invocation. -/
structure PipelineEnv where
  create_dir_err : Option String
  file_exists : String → Bool
  toc_render_err : Option String
  stamp_err : ℕ → Option String
  merge_err : Option String
  bookmarks_err : Option String

/-- Step 5 of `compile_bundle`: stamp each document in order, stopping at the
first failing `inject_pagination` call.  Returns the trace of attempted stamp
steps and the first error, if any. -/
def stampDocuments (env : PipelineEnv) : ℕ → ℕ → List PipelineStep × Option String
  | _, 0 => ([], none)
  | i, remaining + 1 =>
    match env.stamp_err i with
    | some e => ([.stamp i], some e)
    | none =>
      let rest := stampDocuments env (i + 1) remaining
      (.stamp i :: rest.1, rest.2)

/-- `compile_bundle`, returning the Rust function's `Result` together with the
trace of attempted pipeline steps. -/
def compile_bundle (env : PipelineEnv) (documents : List BundleDocument)
    (output_dir : String) (bundle_name : String) (_pagination_style : PaginationStyle) :
    Except String CompileResult × List PipelineStep :=
  match env.create_dir_err with
  | some e => (.error ("Failed to create output directory: " ++ e), [.createDir])
  | none =>
    -- 1. Validate all documents exist (accumulating all missing files)
    let errors : List String :=
      (documents.filter (fun doc => !env.file_exists doc.file_path)).map
        (fun doc => "Document not found: " ++ doc.file_path)
    if errors.isEmpty = false then
      (.ok { success := false, pdf_path := none, toc_entries := [], total_pages := 0,
             errors := errors, warnings := [] }, [.createDir])
    else if documents.isEmpty then
      (.ok { success := false, pdf_path := none, toc_entries := [], total_pages := 0,
             errors := ["No documents to compile"], warnings := [] }, [.createDir])
    else
      -- 2./3. Estimate TOC page count and calculate TOC entries
      let toc_page_count := estimate_toc_pages documents.length
      let toc_entries := calculate_toc_preview documents toc_page_count
      let total_pages :=
        match toc_entries.getLast? with
        | some last => last.end_page
        | none => toc_page_count
      -- 4. Generate TOC PDF (one render; page count is a pure function of entries)
      match env.toc_render_err with
      | some e => (.error e, [.createDir, .tocRender])
      | none =>
        let actual_toc_pages := generate_toc_pdf_page_count toc_entries
        -- One-shot re-flow when the rendered count differs from the estimate
        let reflowed : List TOCEntry × ℕ :=
          if actual_toc_pages ≠ toc_page_count then
            let new_entries := calculate_toc_preview documents actual_toc_pages
            (new_entries,
              match new_entries.getLast? with
              | some last => last.end_page
              | none => total_pages)
          else (toc_entries, total_pages)
        let toc_entries := reflowed.1
        let total_pages := reflowed.2
        -- 5. Inject pagination stamps into each document
        let stamped := stampDocuments env 0 documents.length
        match stamped.2 with
        | some e => (.error e, [.createDir, .tocRender] ++ stamped.1)
        | none =>
          -- 6. Merge all PDFs
          match env.merge_err with
          | some e => (.error e, [.createDir, .tocRender] ++ stamped.1 ++ [.merge])
          | none =>
            -- 7. Add bookmarks (currently a copy)
            match env.bookmarks_err with
            | some e =>
              (.error e, [.createDir, .tocRender] ++ stamped.1 ++ [.merge, .bookmarks])
            | none =>
              -- 8. Clean up temporary files (best effort)
              (.ok { success := true,
                     pdf_path := some (output_dir ++ "/" ++ bundle_name ++ ".pdf"),
                     toc_entries := toc_entries,
                     total_pages := total_pages,
                     errors := [],
                     warnings := [] },
                [.createDir, .tocRender] ++ stamped.1 ++ [.merge, .bookmarks, .cleanup])

/-! ### Lemmas about `calculate_toc_preview` -/

theorem calculate_toc_preview_go_length (docs : List BundleDocument) (i c : ℕ) :
    (calculate_toc_preview_go docs i c).length = docs.length := by
  induction docs generalizing i c with
  | nil => rfl
  | cons d rest ih => simp [calculate_toc_preview_go, ih]

theorem calculate_toc_preview_go_head (docs : List BundleDocument) (i c : ℕ)
    (h : docs ≠ []) :
    ((calculate_toc_preview_go docs i c).head?).map (·.start_page) = some c := by
  cases docs with
  | nil => exact absurd rfl h
  | cons d rest => simp [calculate_toc_preview_go]

theorem getLast?_cons_ne {α : Type _} (a : α) (l : List α) (h : l ≠ []) :
    (a :: l).getLast? = l.getLast? := by
  cases l with
  | nil => exact absurd rfl h
  | cons b t => exact List.getLast?_cons_cons

theorem calculate_toc_preview_go_last (docs : List BundleDocument) (i c : ℕ)
    (h : docs ≠ []) (hpc : ∀ d ∈ docs, 1 ≤ d.page_count) :
    ((calculate_toc_preview_go docs i c).getLast?).map (·.end_page) =
      some (c + (docs.map (·.page_count)).sum - 1) := by
  induction docs generalizing i c with
  | nil => exact absurd rfl h
  | cons d rest ih =>
    cases rest with
    | nil => simp [calculate_toc_preview_go]
    | cons d2 rest2 =>
      have hd : 1 ≤ d.page_count := hpc d (by simp)
      have hrest : ∀ x ∈ d2 :: rest2, 1 ≤ x.page_count := by
        intro x hx; exact hpc x (by simp [hx])
      have ihr := ih (i + 1) (c + d.page_count - 1 + 1) (by simp) hrest
      have hne2 : calculate_toc_preview_go (d2 :: rest2) (i + 1) (c + d.page_count - 1 + 1) ≠ [] := by
        intro hemp
        have := calculate_toc_preview_go_length (d2 :: rest2) (i + 1) (c + d.page_count - 1 + 1)
        rw [hemp] at this
        simp at this
      rw [calculate_toc_preview_go]
      show ((_ :: calculate_toc_preview_go (d2 :: rest2) (i + 1)
        (c + d.page_count - 1 + 1)).getLast?).map (·.end_page) = _
      rw [getLast?_cons_ne _ _ hne2, ihr]
      congr 1
      have hsum : ((d :: d2 :: rest2).map (·.page_count)).sum =
          d.page_count + ((d2 :: rest2).map (·.page_count)).sum := by simp
      have hsum1 : 1 ≤ ((d2 :: rest2).map (·.page_count)).sum := by
        have := hrest d2 (by simp)
        simp only [List.map_cons, List.sum_cons]
        omega
      omega

theorem calculate_toc_preview_go_chain (docs : List BundleDocument) (i c : ℕ) :
    List.Chain' (fun a b => b.start_page = a.end_page + 1)
      (calculate_toc_preview_go docs i c) := by
  induction docs generalizing i c with
  | nil => simp [calculate_toc_preview_go]
  | cons d rest ih =>
    rw [calculate_toc_preview_go]
    rw [List.chain'_cons']
    refine ⟨?_, ih (i + 1) (c + d.page_count - 1 + 1)⟩
    intro y hy
    have hh := calculate_toc_preview_go_head rest (i + 1) (c + d.page_count - 1 + 1)
    cases rest with
    | nil => simp [calculate_toc_preview_go] at hy
    | cons d2 rest2 =>
      have := hh (by simp)
      simp only [Option.map_eq_some'] at this
      obtain ⟨z, hz, hzs⟩ := this
      rw [hy] at hz
      simp at hz
      rw [← hz] at hzs
      exact hzs

theorem calculate_toc_preview_go_entry_invariant (docs : List BundleDocument) (i c : ℕ) :
    ∀ e ∈ calculate_toc_preview_go docs i c,
      e.end_page = e.start_page + e.page_count - 1 := by
  induction docs generalizing i c with
  | nil => simp [calculate_toc_preview_go]
  | cons d rest ih =>
    rw [calculate_toc_preview_go]
    intro e he
    rcases List.mem_cons.mp he with h | h
    · subst h; rfl
    · exact ih (i + 1) (c + d.page_count - 1 + 1) e h

/-- C2: for any nonempty document list with page counts all ≥ 1 and any TOC
page budget `t`, `calculate_toc_preview` returns one entry per document, the
first entry starts at page `t + 1`, the last entry ends at `t + Σ pᵢ`,
consecutive entries are contiguous, and every entry satisfies
`end_page = start_page + page_count - 1`. -/
theorem calculate_toc_preview_spec (documents : List BundleDocument) (t : ℕ)
    (hne : documents ≠ []) (hpc : ∀ d ∈ documents, 1 ≤ d.page_count) :
    (calculate_toc_preview documents t).length = documents.length ∧
    ((calculate_toc_preview documents t).head?).map (·.start_page) = some (t + 1) ∧
    ((calculate_toc_preview documents t).getLast?).map (·.end_page) =
      some (t + (documents.map (·.page_count)).sum) ∧
    List.Chain' (fun a b => b.start_page = a.end_page + 1)
      (calculate_toc_preview documents t) ∧
    ∀ e ∈ calculate_toc_preview documents t,
      e.end_page = e.start_page + e.page_count - 1 := by
  refine ⟨calculate_toc_preview_go_length documents 0 (t + 1),
    calculate_toc_preview_go_head documents 0 (t + 1) hne, ?_,
    calculate_toc_preview_go_chain documents 0 (t + 1),
    calculate_toc_preview_go_entry_invariant documents 0 (t + 1)⟩
  rw [calculate_toc_preview, calculate_toc_preview_go_last documents 0 (t + 1) hne hpc]
  congr 1
  omega

/-- C2 witness: the concrete scenario of the spec (page counts `[5, 3]`,
budget 1). -/
theorem calculate_toc_preview_spec_witness :
    (([⟨"1", "/a", "Tab 1", "First", 5⟩, ⟨"2", "/b", "Tab 2", "Second", 3⟩] :
        List BundleDocument) ≠ [] ∧
      ∀ d ∈ ([⟨"1", "/a", "Tab 1", "First", 5⟩, ⟨"2", "/b", "Tab 2", "Second", 3⟩] :
        List BundleDocument), 1 ≤ d.page_count) ∧
    ((calculate_toc_preview
        [⟨"1", "/a", "Tab 1", "First", 5⟩, ⟨"2", "/b", "Tab 2", "Second", 3⟩] 1).length = 2 ∧
      ((calculate_toc_preview
        [⟨"1", "/a", "Tab 1", "First", 5⟩, ⟨"2", "/b", "Tab 2", "Second", 3⟩] 1).head?).map
          (·.start_page) = some 2 ∧
      ((calculate_toc_preview
        [⟨"1", "/a", "Tab 1", "First", 5⟩, ⟨"2", "/b", "Tab 2", "Second", 3⟩] 1).getLast?).map
          (·.end_page) = some 9) := by
  constructor
  · exact ⟨by decide, by decide⟩
  · have h := calculate_toc_preview_spec
      [⟨"1", "/a", "Tab 1", "First", 5⟩, ⟨"2", "/b", "Tab 2", "Second", 3⟩] 1
      (by decide) (by decide)
    exact ⟨h.1, h.2.1, h.2.2.1⟩

/-! ### C6: sub-page suffix -/

/-- C6 counterexample: the claim asserts the suffix is `'A' + min(idx, 25)` for
*every* index — i.e. a ceiling at `'Z'` for every `idx > 25`.  At `idx = 256`
the Rust `usize → u8` cast wraps to 0 first, so the result is `"1A"`, not the
claimed `"1Z"`. -/
theorem SubPageNumber_clamp_counterexample :
    (SubPageNumber.new 1 256).to_string = "1A" ∧
    (SubPageNumber.new 1 256).to_string ≠
      toString 1 ++ String.singleton (Char.ofNat (65 + Nat.min 256 25)) := by
  constructor
  · rfl
  · intro h
    exact absurd (h.symm.trans rfl) (by decide)

/-- C6 (amended): `SubPageNumber::new(base, idx).to_string()` equals the string
of `base` followed by the letter `'A' + min(idx mod 256, 25)` — the `usize → u8`
cast truncates modulo 256 *before* the clamp at `'Z'`; in particular
`new(45, 0) = "45A"` and `new(100, 25) = "100Z"` as the claim states. -/
theorem SubPageNumber_new_to_string :
    (∀ base index : ℕ,
      (SubPageNumber.new base index).to_string =
        toString base ++ String.singleton (Char.ofNat (65 + Nat.min (index % 256) 25))) ∧
    (SubPageNumber.new 45 0).to_string = "45A" ∧
    (SubPageNumber.new 100 25).to_string = "100Z" ∧
    (∀ index : ℕ, 25 ≤ index % 256 →
      (SubPageNumber.new 1 index).suffix = 'Z') := by
  refine ⟨fun base index => rfl, rfl, rfl, fun index h => ?_⟩
  show Char.ofNat (65 + min (index % 256) 25) = 'Z'
  have hmin : min (index % 256) 25 = 25 := by omega
  rw [hmin]

/-! ### C7: late-insert sub-numbering shifts subsequent documents -/

/-- C7: evaluating `calculate_toc_with_subnumbers` at the failing input.  With
base documents of 2 and 4 pages, one 3-page document inserted after position 0
and TOC budget 1, the document *after* the insertion is labelled `"Tab 3"` on
pages 7–10; without the insertion (`calculate_toc_preview` over the two base
documents) it is `"Tab 2"` on pages 4–7.  The claim that non-inserted documents
following the insertion keep the same labels and absolute page numbers is
violated by the code: the loop advances `current_page` through inserted
documents and never subtracts `insert_count` from later tab numbers (the
subtraction in the source is guarded by `is_late_insert`, which is false on
that branch). -/
theorem calculate_toc_with_subnumbers_shifts_subsequent :
    (calculate_toc_with_subnumbers
        [⟨"1", "/a", "Tab 1", "A", 2⟩, ⟨"x", "/x", "Tab X", "X", 3⟩,
          ⟨"2", "/b", "Tab 2", "B", 4⟩] 1 (some 0) 1).map
        (fun e => (e.label, e.start_page, e.end_page)) =
      [("Tab 1", 2, 3), ("Tab 1A", 4, 6), ("Tab 3", 7, 10)] ∧
    (calculate_toc_preview
        [⟨"1", "/a", "Tab 1", "A", 2⟩, ⟨"2", "/b", "Tab 2", "B", 4⟩] 1).map
        (fun e => (e.label, e.start_page, e.end_page)) =
      [("Tab 1", 2, 3), ("Tab 2", 4, 7)] := by
  exact ⟨rfl, rfl⟩

/-! ### C8: `estimate_toc_pages` under exact `f32` semantics -/

/-- C8 counterexample: the claim `estimate_toc_pages n = max 1 ⌈n / 25⌉` fails
at `n = 16777301 = 2 ^ 24 + 85`: converting `n` to `f32` rounds (ties to even)
down to 16777300, and `16777300 / 25 = 671092` exactly, so the code returns
671092 while `max 1 ⌈16777301 / 25⌉ = 671093` (`(n + 24) / 25` is the ceiling
division on `ℕ`). -/
theorem estimate_toc_pages_f32_counterexample :
    estimate_toc_pages 16777301 = 671092 ∧
    Nat.max 1 ((16777301 + 24) / 25) = 671093 := by
  constructor
  · rfl
  · rfl

/-! ### C5: gap characterization of `validate_pagination` -/

/-- The `pagination_gap` errors that `validate_pagination` produces for the
entries after the first: one error per consecutive pair whose start page
exceeds the page following the previous entry's end. -/
def gapSpecGo (prev : TOCEntry) : List TOCEntry → List ValidationError
  | [] => []
  | e :: rest =>
    (if prev.end_page + 1 < e.start_page then [gapError (prev.end_page + 1) e.start_page]
     else []) ++ gapSpecGo e rest

/-- All `pagination_gap` errors produced by `validate_pagination` for an entry
list (the first entry never receives one). -/
def gapSpec : List TOCEntry → List ValidationError
  | [] => []
  | e0 :: rest => gapSpecGo e0 rest

theorem validate_pagination_go_append (entries : List TOCEntry) (i expected : ℕ)
    (acc : List ValidationError) :
    validate_pagination_go entries i expected acc =
      acc ++ validate_pagination_go entries i expected [] := by
  induction entries generalizing i expected acc with
  | nil => simp [validate_pagination_go]
  | cons e rest ih =>
    rw [validate_pagination_go, validate_pagination_go]
    rw [ih (i + 1) (e.end_page + 1) (acc ++ (validate_pagination_step e i expected).1),
      ih (i + 1) (e.end_page + 1) ([] ++ (validate_pagination_step e i expected).1)]
    simp

/-- Predicate selecting `pagination_gap` errors. -/
def isGapError (e : ValidationError) : Bool := e.error_type == "pagination_gap"

theorem filter_gap_if_single_false {c : Prop} [Decidable c] (x : ValidationError)
    (hx : isGapError x = false) :
    (List.filter isGapError (if c then [x] else [])) = [] := by
  split
  · simp [List.filter, hx]
  · rfl

theorem filter_gap_if_single_true {c : Prop} [Decidable c] (x : ValidationError)
    (hx : isGapError x = true) :
    (List.filter isGapError (if c then [x] else [])) = (if c then [x] else []) := by
  split
  · simp [List.filter, hx]
  · rfl

theorem validate_pagination_step_filter_pos (entry : TOCEntry) (i expected : ℕ)
    (hi : i ≠ 0) :
    ((validate_pagination_step entry i expected).1).filter isGapError =
      (if expected < entry.start_page then [gapError expected entry.start_page] else []) := by
  rw [validate_pagination_step]
  simp only [if_neg hi]
  rw [List.filter_append, List.filter_append]
  rw [show (([] : List ValidationError)).filter isGapError = [] from rfl]
  rw [filter_gap_if_single_true _ (by rfl)]
  rw [filter_gap_if_single_false _ (by rfl)]
  simp

theorem validate_pagination_step_filter_zero (entry : TOCEntry) (expected : ℕ) :
    ((validate_pagination_step entry 0 expected).1).filter isGapError = [] := by
  show (((if entry.start_page < 2 then [overlapError entry.start_page] else []) ++
      (if entry.start_page < entry.start_page
        then [gapError entry.start_page entry.start_page] else []) ++
      (if entry.start_page + entry.page_count - 1 ≠ entry.end_page
        then [mismatchError entry (entry.start_page + entry.page_count - 1)]
        else [])).filter isGapError) = []
  rw [List.filter_append, List.filter_append]
  rw [filter_gap_if_single_false _ (by rfl)]
  rw [filter_gap_if_single_true _ (by rfl)]
  rw [filter_gap_if_single_false _ (by rfl)]
  rw [if_neg (lt_irrefl entry.start_page)]
  rfl

theorem validate_pagination_go_filter (rest : List TOCEntry) (prev : TOCEntry) (i : ℕ)
    (hi : i ≠ 0) :
    (validate_pagination_go rest i (prev.end_page + 1) []).filter isGapError =
      gapSpecGo prev rest := by
  induction rest generalizing prev i with
  | nil => rfl
  | cons e rest2 ih =>
    rw [validate_pagination_go,
      validate_pagination_go_append rest2 (i + 1) (e.end_page + 1), List.filter_append,
      List.filter_append]
    have hstep := validate_pagination_step_filter_pos e i (prev.end_page + 1) hi
    rw [hstep, ih e (i + 1) (by omega)]
    simp [gapSpecGo]

theorem validate_pagination_gap_errors (entries : List TOCEntry)
    (pdf_load : Option (Except String ℕ)) :
    ((validate_pagination entries pdf_load).errors).filter isGapError = gapSpec entries := by
  have hgo : (validate_pagination_go entries 0 1 []).filter isGapError = gapSpec entries := by
    cases entries with
    | nil => rfl
    | cons e0 rest =>
      rw [validate_pagination_go,
        validate_pagination_go_append rest 1 (e0.end_page + 1), List.filter_append,
        List.filter_append]
      rw [show (([] : List ValidationError)).filter isGapError = [] from rfl]
      rw [validate_pagination_step_filter_zero e0 1]
      rw [validate_pagination_go_filter rest e0 1 (by omega)]
      simp [gapSpec]
  cases pdf_load with
  | none => exact hgo
  | some res =>
    cases res with
    | ok n =>
      show ((validate_pagination_go entries 0 1 [] ++
          (if n ≠ ((entries.getLast?.map (·.end_page)).getD 0)
            then [totalMismatchError ((entries.getLast?.map (·.end_page)).getD 0) n]
            else [])).filter isGapError) = gapSpec entries
      rw [List.filter_append, filter_gap_if_single_false _ (by rfl), hgo, List.append_nil]
    | error e => exact hgo

/-- C5 counterexample: the claim asserts a `pagination_gap` is reported iff
`entry[i].start_page ≠ entry[i-1].end_page + 1`.  For the overlapping entries
`[2-5], [4-7]` we have `4 ≠ 5 + 1`, yet the code (which tests
`start_page > expected` only) reports no `pagination_gap` error at all. -/
theorem validate_pagination_gap_counterexample :
    ((validate_pagination [⟨"Tab 1", "First", 2, 5, 4⟩, ⟨"Tab 2", "Second", 4, 7, 4⟩]
        none).errors).filter isGapError = [] ∧
    (4 : ℕ) ≠ 5 + 1 := by
  exact ⟨rfl, by decide⟩

/-- C5 (amended): `validate_pagination` reports a `pagination_gap` for
`entry[i]` (`i ≥ 1`) iff `entry[i].start_page > entry[i-1].end_page + 1`
(strictly greater, not merely different) — formalized by the exact
characterization of the filtered error list as `gapSpec`; and the claim's
example `[2-5], [7-10]` yields exactly one `pagination_gap` error whose
`expected` field is 6. -/
theorem validate_pagination_gap_spec :
    (∀ (toc_entries : List TOCEntry) (pdf_load : Option (Except String ℕ)),
      ((validate_pagination toc_entries pdf_load).errors).filter isGapError =
        gapSpec toc_entries) ∧
    ((validate_pagination [⟨"Tab 1", "First", 2, 5, 4⟩, ⟨"Tab 2", "Second", 7, 10, 4⟩]
        none).errors).filter isGapError = [gapError 6 7] ∧
    (gapError 6 7).expected = some 6 := by
  exact ⟨validate_pagination_gap_errors, rfl, rfl⟩

/-! ### C8: correctness of the binary32 model on the exactly representable range -/

theorem natLog2Aux_spec (fuel : ℕ) : ∀ (n : ℕ), 1 ≤ n → n < 2 ^ fuel →
    2 ^ natLog2Aux fuel n ≤ n ∧ n < 2 ^ (natLog2Aux fuel n + 1) := by
  induction fuel with
  | zero => intro n h1 h2; simp at h2; omega
  | succ fuel ih =>
    intro n h1 h2
    rw [natLog2Aux]
    by_cases hn : n ≤ 1
    · rw [if_pos hn]
      have : n = 1 := by omega
      subst this
      constructor
      · simp
      · simp
    · rw [if_neg hn]
      have hdiv1 : 1 ≤ n / 2 := by omega
      have hpow : 2 ^ (fuel + 1) = 2 ^ fuel * 2 := pow_succ 2 fuel
      have hdiv2 : n / 2 < 2 ^ fuel := by omega
      obtain ⟨ha, hb⟩ := ih (n / 2) hdiv1 hdiv2
      have e1 : 2 ^ (natLog2Aux fuel (n / 2) + 1) = 2 ^ natLog2Aux fuel (n / 2) * 2 :=
        pow_succ _ _
      have e2 : 2 ^ (natLog2Aux fuel (n / 2) + 1 + 1) =
          2 ^ (natLog2Aux fuel (n / 2) + 1) * 2 := pow_succ _ _
      constructor
      · omega
      · omega

theorem natLog2_spec (n : ℕ) (h1 : 1 ≤ n) (h2 : n < 2 ^ 64) :
    2 ^ natLog2 n ≤ n ∧ n < 2 ^ (natLog2 n + 1) :=
  natLog2Aux_spec 64 n h1 h2

/-- The dyadic power `(2 : ℚ) ^ (k : ℤ)` of a natural exponent. -/
theorem zpow_natCast_two (k : ℕ) : (2 : ℚ) ^ (k : ℤ) = (2 : ℚ) ^ k := zpow_natCast 2 k

theorem two_zpow_pos (k : ℤ) : (0 : ℚ) < 2 ^ k := zpow_pos (by norm_num) k

/-- Lower bound of `floorLog2Frac`: `2 ^ floorLog2Frac a b ≤ a / b`. -/
theorem floorLog2Frac_le (a b : ℕ) (ha : 1 ≤ a) (hb : 1 ≤ b)
    (ha64 : a < 2 ^ 64) (hb64 : b < 2 ^ 64) :
    (2 : ℚ) ^ floorLog2Frac a b ≤ (a : ℚ) / b := by
  have hbq : (0 : ℚ) < (b : ℚ) := by exact_mod_cast hb
  obtain ⟨hA1, hA2⟩ := natLog2_spec a ha ha64
  obtain ⟨hB1, hB2⟩ := natLog2_spec b hb hb64
  rw [floorLog2Frac]
  set k : ℤ := (natLog2 a : ℤ) - (natLog2 b : ℤ) with hk
  by_cases hle : (if 0 ≤ k then decide (b * 2 ^ k.toNat ≤ a) else decide (b ≤ a * 2 ^ (-k).toNat)) = true
  · rw [if_pos hle]
    by_cases hk0 : 0 ≤ k
    · rw [if_pos hk0] at hle
      have hnat : b * 2 ^ k.toNat ≤ a := of_decide_eq_true hle
      rw [le_div_iff₀ hbq]
      have : (2 : ℚ) ^ k = (2 : ℚ) ^ k.toNat := by
        rw [← zpow_natCast_two, Int.toNat_of_nonneg hk0]
      rw [this]
      calc (2 : ℚ) ^ k.toNat * b = ((b * 2 ^ k.toNat : ℕ) : ℚ) := by push_cast; ring
        _ ≤ (a : ℚ) := by exact_mod_cast hnat
    · rw [if_neg hk0] at hle
      have hnat : b ≤ a * 2 ^ (-k).toNat := of_decide_eq_true hle
      rw [le_div_iff₀ hbq]
      have hkneg : (2 : ℚ) ^ k = ((2 : ℚ) ^ (-k).toNat)⁻¹ := by
        rw [← zpow_natCast_two, Int.toNat_of_nonneg (by omega : (0 : ℤ) ≤ -k), ← zpow_neg,
          neg_neg]
      rw [hkneg, inv_mul_le_iff₀ (by positivity : (0 : ℚ) < 2 ^ (-k).toNat)]
      calc (b : ℚ) ≤ ((a * 2 ^ (-k).toNat : ℕ) : ℚ) := by exact_mod_cast hnat
        _ = 2 ^ (-k).toNat * (a : ℚ) := by push_cast; ring
  · rw [if_neg hle]
    -- a / b > 2 ^ (La - Lb - 1) from 2 ^ La ≤ a and b < 2 ^ (Lb + 1)
    have hstep : (2 : ℚ) ^ (k - 1) ≤ (2 : ℚ) ^ (natLog2 a : ℤ) / (2 : ℚ) ^ ((natLog2 b : ℤ) + 1) := by
      rw [div_eq_mul_inv, ← zpow_neg, ← zpow_add₀ (by norm_num : (2 : ℚ) ≠ 0)]
      apply le_of_eq
      congr 1
      omega
    refine hstep.trans ?_
    rw [div_le_div_iff₀ (two_zpow_pos _) hbq]
    have hzA : (2 : ℚ) ^ (natLog2 a : ℤ) = ((2 ^ natLog2 a : ℕ) : ℚ) := by
      rw [zpow_natCast_two]; push_cast; ring
    have hzB : (2 : ℚ) ^ ((natLog2 b : ℤ) + 1) = ((2 ^ (natLog2 b + 1) : ℕ) : ℚ) := by
      have h : ((natLog2 b : ℤ) + 1) = ((natLog2 b + 1 : ℕ) : ℤ) := by push_cast; ring
      rw [h, zpow_natCast_two]; push_cast; ring
    rw [hzA, hzB]
    exact_mod_cast Nat.mul_le_mul hA1 hB2.le

/-- Round-to-nearest with ties to even is within half a unit of the exact
quotient. -/
theorem round_half_err (num den : ℕ) (hden : 1 ≤ den) :
    |((if 2 * (num % den) < den then num / den
       else if den < 2 * (num % den) then num / den + 1
       else if (num / den) % 2 = 0 then num / den else num / den + 1 : ℕ) : ℚ) -
      (num : ℚ) / den| ≤ 1 / 2 := by
  have hdq : (0 : ℚ) < den := by exact_mod_cast hden
  have hfr : den * (num / den) + num % den = num := Nat.div_add_mod num den
  have hrlt : num % den < den := Nat.mod_lt _ (by omega)
  have hfq : (num : ℚ) / den = ((num / den : ℕ) : ℚ) + ((num % den : ℕ) : ℚ) / den := by
    field_simp
    have hc : ((den * (num / den) + num % den : ℕ) : ℚ) = (num : ℚ) := by
      exact_mod_cast congrArg (Nat.cast : ℕ → ℚ) hfr
    push_cast at hc
    linarith
  have hrd0 : (0 : ℚ) ≤ ((num % den : ℕ) : ℚ) / den := by positivity
  have hrd1 : ((num % den : ℕ) : ℚ) / den ≤ 1 := by
    rw [div_le_one hdq]; exact_mod_cast hrlt.le
  by_cases h1 : 2 * (num % den) < den
  · rw [if_pos h1]
    have hhalf : ((num % den : ℕ) : ℚ) / den ≤ 1 / 2 := by
      rw [div_le_iff₀ hdq]
      have : (2 * (num % den) : ℕ) ≤ den := h1.le
      have hc : ((2 * (num % den) : ℕ) : ℚ) ≤ (den : ℚ) := by exact_mod_cast this
      push_cast at hc
      linarith
    rw [hfq, abs_le]
    constructor <;> push_cast <;> linarith
  · rw [if_neg h1]
    have hhalf : 1 / 2 ≤ ((num % den : ℕ) : ℚ) / den := by
      rw [le_div_iff₀ hdq]
      have : den ≤ 2 * (num % den) := by omega
      have hc : ((den : ℕ) : ℚ) ≤ ((2 * (num % den) : ℕ) : ℚ) := by exact_mod_cast this
      push_cast at hc
      linarith
    by_cases h2 : den < 2 * (num % den)
    · rw [if_pos h2, hfq, abs_le]
      constructor <;> push_cast <;> linarith
    · rw [if_neg h2]
      have hhalf2 : ((num % den : ℕ) : ℚ) / den ≤ 1 / 2 := by
        rw [div_le_iff₀ hdq]
        have h2r : 2 * (num % den) ≤ den := by omega
        have hc : ((2 * (num % den) : ℕ) : ℚ) ≤ (den : ℚ) := by exact_mod_cast h2r
        push_cast at hc
        linarith
      by_cases h3 : (num / den) % 2 = 0
      · rw [if_pos h3, hfq, abs_le]
        constructor <;> push_cast <;> linarith
      · rw [if_neg h3, hfq, abs_le]
        constructor <;> push_cast <;> linarith

/-- The scaled fraction inside `roundF32Frac` has value `(a / b) * 2 ^ (23 - E)`. -/
theorem roundF32Frac_scaled (a b : ℕ) (hb : 1 ≤ b) (E : ℤ) :
    (((if 0 ≤ 23 - E then a * 2 ^ (23 - E).toNat else a : ℕ) : ℚ)) /
      ((if 0 ≤ 23 - E then b else b * 2 ^ (E - 23).toNat : ℕ) : ℚ) =
      ((a : ℚ) / b) * 2 ^ ((23 : ℤ) - E) := by
  have hbq : (0 : ℚ) < b := by exact_mod_cast hb
  by_cases h23 : 0 ≤ 23 - E
  · rw [if_pos h23, if_pos h23]
    have hz : (2 : ℚ) ^ ((23 : ℤ) - E) = (2 : ℚ) ^ (23 - E).toNat := by
      rw [← zpow_natCast_two, Int.toNat_of_nonneg h23]
    rw [hz]
    push_cast
    field_simp
  · rw [if_neg h23, if_neg h23]
    have hz : (2 : ℚ) ^ ((23 : ℤ) - E) = ((2 : ℚ) ^ (E - 23).toNat)⁻¹ := by
      rw [← zpow_natCast_two, Int.toNat_of_nonneg (by omega : (0 : ℤ) ≤ E - 23), ← zpow_neg]
      congr 1
      ring
    rw [hz]
    push_cast
    rw [div_mul_eq_div_div, div_eq_mul_inv]

/-- The rounded value is within `2 ^ (E - 24)` of the exact quotient, where
`E = floorLog2Frac a b`. -/
theorem roundF32Frac_err (a b : ℕ) (ha : 1 ≤ a) (hb : 1 ≤ b) :
    |dyVal (roundF32Frac a b) - (a : ℚ) / b| ≤ 2 ^ (floorLog2Frac a b - 24) := by
  have ha0 : ¬(a = 0) := by omega
  have hbq : (0 : ℚ) < b := by exact_mod_cast hb
  set E := floorLog2Frac a b with hE
  set num : ℕ := if 0 ≤ 23 - E then a * 2 ^ (23 - E).toNat else a with hnum
  set den : ℕ := if 0 ≤ 23 - E then b else b * 2 ^ (E - 23).toNat with hden
  have hden1 : 1 ≤ den := by
    rw [hden]
    split
    · exact hb
    · have := Nat.pos_pow_of_pos ((E - 23).toNat) (show 0 < 2 by norm_num)
      exact Nat.one_le_iff_ne_zero.mpr (Nat.mul_ne_zero (by omega) (by omega))
  have hround : roundF32Frac a b =
      ((if 2 * (num % den) < den then num / den
        else if den < 2 * (num % den) then num / den + 1
        else if (num / den) % 2 = 0 then num / den else num / den + 1 : ℕ), E - 23) := by
    rw [roundF32Frac, if_neg ha0]
  rw [hround]
  have hS := roundF32Frac_scaled a b hb E
  rw [← hnum, ← hden] at hS
  have herr := round_half_err num den hden1
  have hzpos : (0 : ℚ) < (2 : ℚ) ^ (E - 23) := two_zpow_pos _
  have hvdecomp : (a : ℚ) / b = ((num : ℚ) / den) * 2 ^ (E - 23) := by
    rw [hS, mul_assoc, ← zpow_add₀ (by norm_num : (2 : ℚ) ≠ 0)]
    have : (23 : ℤ) - E + (E - 23) = 0 := by ring
    rw [this, zpow_zero, mul_one]
  rw [dyVal]
  simp only
  rw [hvdecomp, ← sub_mul, abs_mul, abs_of_pos hzpos]
  have hpow : (2 : ℚ) ^ (E - 24) = (1 / 2) * 2 ^ (E - 23) := by
    have hsplit : E - 24 = (-1) + (E - 23) := by ring
    rw [hsplit, zpow_add₀ (by norm_num : (2 : ℚ) ≠ 0), zpow_neg_one]
    norm_num
  rw [hpow]
  exact mul_le_mul_of_nonneg_right herr hzpos.le

/-- A zpow numeral bridge used below. -/
theorem two_zpow_ofNat (k : ℕ) : (2 : ℚ) ^ ((k : ℤ)) = ((2 ^ k : ℕ) : ℚ) := by
  rw [zpow_natCast_two]
  push_cast
  ring

/-- Rounding an exact integer quotient `j = a / b ≤ 2 ^ 24` is exact. -/
theorem roundF32Frac_exact (a b j : ℕ) (hb : 1 ≤ b) (hj : 1 ≤ j) (hj24 : j ≤ 2 ^ 24)
    (hab : a = j * b) (ha64 : a < 2 ^ 64) (hb64 : b < 2 ^ 64) :
    dyVal (roundF32Frac a b) = j := by
  have ha : 1 ≤ a := by
    rw [hab]; exact Nat.one_le_iff_ne_zero.mpr (Nat.mul_ne_zero (by omega) (by omega))
  have ha0 : ¬(a = 0) := by omega
  have hbq : (0 : ℚ) < b := by exact_mod_cast hb
  have hvj : (a : ℚ) / b = j := by
    rw [hab]
    push_cast
    field_simp
  have hE_le : floorLog2Frac a b ≤ 24 := by
    by_contra hcon
    push_neg at hcon
    have hlow := floorLog2Frac_le a b ha hb ha64 hb64
    rw [hvj] at hlow
    have h25 : (2 : ℚ) ^ ((25 : ℕ) : ℤ) ≤ 2 ^ floorLog2Frac a b :=
      zpow_le_zpow_right₀ (by norm_num) (by omega)
    rw [two_zpow_ofNat] at h25
    have hjq : (j : ℚ) ≤ ((2 ^ 24 : ℕ) : ℚ) := by exact_mod_cast hj24
    have := le_trans h25 hlow
    have hlt : ((2 ^ 24 : ℕ) : ℚ) < ((2 ^ 25 : ℕ) : ℚ) := by
      norm_num
    linarith
  have hround : roundF32Frac a b =
      (let E := floorLog2Frac a b
       let num : ℕ := if 0 ≤ 23 - E then a * 2 ^ (23 - E).toNat else a
       let den : ℕ := if 0 ≤ 23 - E then b else b * 2 ^ (E - 23).toNat
       ((if 2 * (num % den) < den then num / den
        else if den < 2 * (num % den) then num / den + 1
        else if (num / den) % 2 = 0 then num / den else num / den + 1 : ℕ), E - 23)) := by
    rw [roundF32Frac, if_neg ha0]
  set E := floorLog2Frac a b with hEdef
  by_cases hE : 0 ≤ 23 - E
  · -- subunit scaling: num = a * 2 ^ (23 - E), den = b, remainder 0
    have hnum : (if 0 ≤ 23 - E then a * 2 ^ (23 - E).toNat else a) = a * 2 ^ (23 - E).toNat :=
      if_pos hE
    have hden : (if 0 ≤ 23 - E then b else b * 2 ^ (E - 23).toNat) = b := if_pos hE
    rw [hround]
    simp only [hnum, hden]
    have hfact : a * 2 ^ (23 - E).toNat = (j * 2 ^ (23 - E).toNat) * b := by
      rw [hab]; ring
    have hmod : (a * 2 ^ (23 - E).toNat) % b = 0 := by
      rw [hfact]; exact Nat.mul_mod_left _ _
    have hdiv : (a * 2 ^ (23 - E).toNat) / b = j * 2 ^ (23 - E).toNat := by
      rw [hfact]; exact Nat.mul_div_cancel _ (by omega)
    rw [hmod, hdiv]
    rw [if_pos (by omega : 2 * 0 < b)]
    rw [dyVal]
    simp only
    push_cast
    rw [mul_assoc]
    have hzp : ((2 : ℚ) ^ (23 - E).toNat) * (2 : ℚ) ^ (E - 23) = 1 := by
      rw [← zpow_natCast_two, Int.toNat_of_nonneg hE,
        ← zpow_add₀ (by norm_num : (2 : ℚ) ≠ 0)]
      rw [show (23 : ℤ) - E + (E - 23) = 0 by ring, zpow_zero]
    rw [hzp, mul_one]
  · -- E = 24, so j = 2 ^ 24 and the scaled fraction is a / (2 b)
    have hE24 : E = 24 := by omega
    have hlow := floorLog2Frac_le a b ha hb ha64 hb64
    rw [hvj, ← hEdef, hE24] at hlow
    have hlow24 : (2 : ℚ) ^ ((24 : ℕ) : ℤ) ≤ (j : ℚ) := by
      rw [show ((24 : ℕ) : ℤ) = (24 : ℤ) by norm_num]
      exact hlow
    rw [two_zpow_ofNat 24] at hlow24
    have hj_eq : j = 2 ^ 24 := by
      have h1 : (2 ^ 24 : ℕ) ≤ j := by exact_mod_cast hlow24
      omega
    have hnum : (if 0 ≤ 23 - E then a * 2 ^ (23 - E).toNat else a) = a := if_neg hE
    have hden : (if 0 ≤ 23 - E then b else b * 2 ^ (E - 23).toNat) = b * 2 := by
      rw [if_neg hE, hE24]
      norm_num
    rw [hround]
    simp only [hnum, hden]
    have hfact : a = (2 ^ 23) * (b * 2) := by
      rw [hab, hj_eq]; ring
    have hmod : a % (b * 2) = 0 := by
      rw [hfact]; exact Nat.mul_mod_left _ _
    have hdiv : a / (b * 2) = 2 ^ 23 := by
      rw [hfact]; exact Nat.mul_div_cancel _ (by omega)
    rw [hmod, hdiv]
    rw [if_pos (by omega : 2 * 0 < b * 2)]
    rw [dyVal]
    simp only
    rw [hE24, hj_eq]
    rw [show (24 : ℤ) - 23 = ((1 : ℕ) : ℤ) by norm_num, zpow_natCast_two]
    push_cast
    ring

/-- `dyCeil` computes the ceiling of the dyadic value. -/
theorem dyCeil_eq (p : ℕ × ℤ) : (dyCeil p : ℤ) = ⌈dyVal p⌉ := by
  rcases p with ⟨m, e⟩
  rw [dyCeil, dyVal]
  simp only
  by_cases he : 0 ≤ e
  · rw [if_pos he]
    have hval : (m : ℚ) * 2 ^ e = ((m * 2 ^ e.toNat : ℕ) : ℚ) := by
      rw [← Int.toNat_of_nonneg he, zpow_natCast_two]
      push_cast
      rw [Int.toNat_of_nonneg he]
    rw [hval, Int.ceil_natCast]
  · rw [if_neg he]
    set P : ℕ := 2 ^ (-e).toNat with hP
    have hP1 : 1 ≤ P := Nat.one_le_two_pow
    have hPq : (0 : ℚ) < (P : ℚ) := by exact_mod_cast hP1
    have hval : (m : ℚ) * 2 ^ e = (m : ℚ) / P := by
      rw [hP]
      push_cast
      rw [← zpow_natCast_two, Int.toNat_of_nonneg (by omega : (0 : ℤ) ≤ -e), zpow_neg,
        div_eq_mul_inv, inv_inv]
    rw [hval]
    set q : ℕ := (m + P - 1) / P with hq
    have hdm := Nat.div_add_mod (m + P - 1) P
    have hs : (m + P - 1) % P < P := Nat.mod_lt _ (by omega)
    rw [← hq] at hdm
    have h1 : m ≤ P * q := by omega
    have h2 : P * q < m + P := by omega
    have hc1 : (m : ℚ) ≤ (P : ℚ) * q := by exact_mod_cast h1
    have hc2 : (P : ℚ) * q < (m : ℚ) + P := by exact_mod_cast h2
    symm
    rw [Int.ceil_eq_iff]
    constructor
    · push_cast
      rw [sub_lt_iff_lt_add, div_add' _ _ _ (ne_of_gt hPq), lt_div_iff₀ hPq]
      nlinarith
    · push_cast
      rw [div_le_iff₀ hPq]
      nlinarith

/-- For an integer input (`b = 1`), `floorLog2Frac` is `natLog2`. -/
theorem floorLog2Frac_one (n : ℕ) (h1 : 1 ≤ n) (h64 : n < 2 ^ 64) :
    floorLog2Frac n 1 = (natLog2 n : ℤ) := by
  have hlow := (natLog2_spec n h1 h64).1
  have hL1 : natLog2 1 = 0 := by decide
  rw [floorLog2Frac, hL1]
  simp only [Nat.cast_zero, sub_zero]
  rw [if_pos (by positivity : (0 : ℤ) ≤ (natLog2 n : ℤ))]
  have htoNat : ((natLog2 n : ℤ)).toNat = natLog2 n := by omega
  have htest : decide (1 * 2 ^ ((natLog2 n : ℤ)).toNat ≤ n) = true := by
    rw [htoNat, one_mul]
    exact decide_eq_true hlow
  rw [htest]
  rw [if_pos rfl]

/-- The exponent component of `roundF32Frac`. -/
theorem roundF32Frac_snd (a b : ℕ) (ha0 : a ≠ 0) :
    (roundF32Frac a b).2 = floorLog2Frac a b - 23 := by
  rw [roundF32Frac, if_neg ha0]

/-- Converting `n ≤ 2 ^ 24` to binary32 is exact, with mantissa at most `2 ^ 24`
and exponent in `[-23, 1]`. -/
theorem roundF32Frac_one (n : ℕ) (h1 : 1 ≤ n) (h24 : n ≤ 2 ^ 24) :
    dyVal (roundF32Frac n 1) = n ∧ (roundF32Frac n 1).1 ≤ 2 ^ 24 ∧
      -23 ≤ (roundF32Frac n 1).2 ∧ (roundF32Frac n 1).2 ≤ 1 := by
  have h64 : n < 2 ^ 64 := lt_of_le_of_lt h24 (by norm_num)
  have hval := roundF32Frac_exact n 1 n (le_refl 1) h1 h24 (by ring) h64 (by norm_num)
  have hE : floorLog2Frac n 1 = (natLog2 n : ℤ) := floorLog2Frac_one n h1 h64
  obtain ⟨hL1, hL2⟩ := natLog2_spec n h1 h64
  have hLle : natLog2 n ≤ 24 := by
    by_contra hcon
    push_neg at hcon
    have h25 : (2 : ℕ) ^ 25 ≤ 2 ^ natLog2 n := Nat.pow_le_pow_right (by norm_num) hcon
    have h25v : (2 : ℕ) ^ 25 = 33554432 := by norm_num
    have h24v : (2 : ℕ) ^ 24 = 16777216 := by norm_num
    omega
  have hsnd : (roundF32Frac n 1).2 = (natLog2 n : ℤ) - 23 := by
    rw [roundF32Frac_snd n 1 (by omega), hE]
  refine ⟨hval, ?_, ?_, ?_⟩
  · -- mantissa bound
    by_cases hL23 : natLog2 n ≤ 23
    · have hround : roundF32Frac n 1 =
          (let E := floorLog2Frac n 1
           let num : ℕ := if 0 ≤ 23 - E then n * 2 ^ (23 - E).toNat else n
           let den : ℕ := if 0 ≤ 23 - E then 1 else 1 * 2 ^ (E - 23).toNat
           ((if 2 * (num % den) < den then num / den
            else if den < 2 * (num % den) then num / den + 1
            else if (num / den) % 2 = 0 then num / den else num / den + 1 : ℕ), E - 23)) := by
        rw [roundF32Frac, if_neg (by omega : ¬(n = 0))]
      rw [hround]
      simp only [hE]
      simp only [if_pos (show (0 : ℤ) ≤ 23 - (natLog2 n : ℤ) by omega)]
      simp only [Nat.mod_one, Nat.div_one]
      rw [if_pos (by omega : 2 * 0 < 1)]
      have htoNat : ((23 : ℤ) - (natLog2 n : ℤ)).toNat = 23 - natLog2 n := by omega
      rw [htoNat]
      have hmul : 2 ^ (natLog2 n + 1) * 2 ^ (23 - natLog2 n) = 2 ^ 24 := by
        rw [← pow_add]
        congr 1
        omega
      calc n * 2 ^ (23 - natLog2 n) ≤ 2 ^ (natLog2 n + 1) * 2 ^ (23 - natLog2 n) :=
            Nat.mul_le_mul_right _ hL2.le
        _ = 2 ^ 24 := hmul
    · have hL24 : natLog2 n = 24 := by omega
      have hn : n = 2 ^ 24 := by
        rw [hL24] at hL1
        omega
      subst hn
      decide
  · omega
  · omega

/-- C8 (amended): on the range where a document count is exactly representable
in `f32` (`n ≤ 2 ^ 24`), `estimate_toc_pages n = max 1 ⌈n / 25⌉`, where
`(n + 24) / 25` is the ceiling division on `ℕ`.  (Beyond `2 ^ 24` the
`usize → f32` conversion rounds and the result can differ — see the
counterexample at `n = 16777301`.) -/
theorem estimate_toc_pages_eq_ceil (n : ℕ) (h24 : n ≤ 2 ^ 24) :
    estimate_toc_pages n = Nat.max 1 ((n + 24) / 25) := by
  by_cases h0 : n = 0
  · subst h0
    decide
  · have h1 : 1 ≤ n := by omega
    obtain ⟨hval1, hm1, he1a, he1b⟩ := roundF32Frac_one n h1 h24
    rw [estimate_toc_pages]
    set p1 : ℕ × ℤ := roundF32Frac n 1 with hp1
    set AB : ℕ × ℕ := dyDivFrac p1.1 p1.2 25 with hABdef
    -- the fraction AB has the exact value n / 25
    have hABval : ((AB.1 : ℚ)) / (AB.2 : ℚ) = (n : ℚ) / 25 := by
      rw [hABdef, dyDivFrac]
      by_cases he : 0 ≤ p1.2
      · rw [if_pos he]
        simp only
        have hcast : ((p1.1 * 2 ^ p1.2.toNat : ℕ) : ℚ) = dyVal p1 := by
          rw [dyVal, ← Int.toNat_of_nonneg he, zpow_natCast_two]
          push_cast
          rw [Int.toNat_of_nonneg he]
        rw [hcast, hval1]
        norm_num
      · rw [if_neg he]
        simp only
        push_cast
        rw [div_mul_eq_div_div]
        rw [div_eq_div_iff (by positivity) (by norm_num : (25 : ℚ) ≠ 0)]
        have hv : (p1.1 : ℚ) = (n : ℚ) * 2 ^ (-p1.2) := by
          have : dyVal p1 * 2 ^ (-p1.2) = (n : ℚ) * 2 ^ (-p1.2) := by rw [hval1]
          rw [dyVal, mul_assoc, ← zpow_add₀ (by norm_num : (2 : ℚ) ≠ 0)] at this
          simpa using this
        rw [← zpow_natCast_two, Int.toNat_of_nonneg (by omega : (0 : ℤ) ≤ -p1.2)]
        rw [hv]
        ring
    have hB1 : 1 ≤ AB.2 := by
      rw [hABdef, dyDivFrac]
      split
      · norm_num
      · simp only
        have := Nat.one_le_two_pow (n := (-p1.2).toNat)
        omega
    have hA1 : 1 ≤ AB.1 := by
      by_contra hcon
      push_neg at hcon
      have hA0 : AB.1 = 0 := by omega
      rw [hA0] at hABval
      have hn0 : (0 : ℚ) < (n : ℚ) / 25 := by positivity
      simp at hABval
      rw [← hABval] at hn0
      simp at hn0
    have hA64 : AB.1 < 2 ^ 64 := by
      rw [hABdef, dyDivFrac]
      by_cases he : 0 ≤ p1.2
      · rw [if_pos he]
        simp only
        have hexp : p1.2.toNat ≤ 1 := by omega
        have : 2 ^ p1.2.toNat ≤ 2 ^ 1 := Nat.pow_le_pow_right (by norm_num) hexp
        have hb : p1.1 * 2 ^ p1.2.toNat ≤ 2 ^ 24 * 2 := by
          calc p1.1 * 2 ^ p1.2.toNat ≤ 2 ^ 24 * 2 ^ p1.2.toNat := Nat.mul_le_mul_right _ hm1
            _ ≤ 2 ^ 24 * 2 := Nat.mul_le_mul_left _ (by omega)
        have : (2 : ℕ) ^ 24 * 2 < 2 ^ 64 := by norm_num
        omega
      · rw [if_neg he]
        simp only
        have : (2 : ℕ) ^ 24 < 2 ^ 64 := by norm_num
        omega
    have hB64 : AB.2 < 2 ^ 64 := by
      rw [hABdef, dyDivFrac]
      by_cases he : 0 ≤ p1.2
      · rw [if_pos he]
        norm_num
      · rw [if_neg he]
        simp only
        have hexp : (-p1.2).toNat ≤ 23 := by omega
        have hp : 2 ^ (-p1.2).toNat ≤ 2 ^ 23 := Nat.pow_le_pow_right (by norm_num) hexp
        have : (25 : ℕ) * 2 ^ 23 < 2 ^ 64 := by norm_num
        have := Nat.mul_le_mul_left 25 hp
        omega
    by_cases hdvd : n % 25 = 0
    · -- n divisible by 25: the quotient is exact
      set j := n / 25 with hj
      have hn25 : n = 25 * j := by omega
      have hj1 : 1 ≤ j := by omega
      have hj24 : j ≤ 2 ^ 24 := by omega
      have hABeq : AB.1 = j * AB.2 := by
        have hBq : (0 : ℚ) < (AB.2 : ℚ) := by exact_mod_cast hB1
        have hq : (AB.1 : ℚ) = (j : ℚ) * AB.2 := by
          have hvj : (n : ℚ) / 25 = (j : ℚ) := by
            rw [hn25]
            push_cast
            field_simp
          rw [hvj, div_eq_iff (ne_of_gt hBq)] at hABval
          exact hABval
        exact_mod_cast hq
      have hex := roundF32Frac_exact AB.1 AB.2 j hB1 hj1 hj24 hABeq hA64 hB64
      have hceil : dyCeil (roundF32Frac AB.1 AB.2) = j := by
        have hz := dyCeil_eq (roundF32Frac AB.1 AB.2)
        rw [hex, Int.ceil_natCast] at hz
        exact_mod_cast hz
      rw [hceil]
      have hc : (n + 24) / 25 = j := by omega
      rw [hc]
      exact Nat.max_comm j 1
    · -- remainder at least 1: the true quotient is strictly between k and k + 1
      set k := n / 25 with hk
      have hr1 : 1 ≤ n % 25 := by omega
      have hr24 : n % 25 ≤ 24 := by omega
      have hdm : 25 * k + n % 25 = n := Nat.div_add_mod n 25
      have hE_low := floorLog2Frac_le AB.1 AB.2 hA1 hB1 hA64 hB64
      rw [hABval] at hE_low
      have hv20 : (n : ℚ) / 25 < (2 : ℚ) ^ ((20 : ℕ) : ℤ) := by
        rw [two_zpow_ofNat, div_lt_iff₀ (by norm_num : (0 : ℚ) < 25)]
        have hval : ((2 ^ 20 : ℕ) : ℚ) * 25 = ((2 ^ 20 * 25 : ℕ) : ℚ) := by push_cast; ring
        rw [hval]
        have h1 : n ≤ 2 ^ 24 := h24
        have h2 : (2 : ℕ) ^ 24 < 2 ^ 20 * 25 := by norm_num
        exact_mod_cast lt_of_le_of_lt h1 h2
      have hE19 : floorLog2Frac AB.1 AB.2 ≤ 19 := by
        by_contra hcon
        push_neg at hcon
        have hmono : (2 : ℚ) ^ ((20 : ℕ) : ℤ) ≤ 2 ^ floorLog2Frac AB.1 AB.2 :=
          zpow_le_zpow_right₀ (by norm_num) (by omega)
        exact lt_irrefl _ (lt_of_lt_of_le hv20 (le_trans hmono hE_low))
      have herr := roundF32Frac_err AB.1 AB.2 hA1 hB1
      rw [hABval] at herr
      have hbound : (2 : ℚ) ^ (floorLog2Frac AB.1 AB.2 - 24) ≤ 1 / 32 := by
        have hmono : (2 : ℚ) ^ (floorLog2Frac AB.1 AB.2 - 24) ≤ 2 ^ (-5 : ℤ) :=
          zpow_le_zpow_right₀ (by norm_num) (by omega)
        have hv : (2 : ℚ) ^ (-5 : ℤ) = 1 / 32 := by
          rw [zpow_neg]
          norm_num
        exact hmono.trans (le_of_eq hv)
      obtain ⟨herr1, herr2⟩ := abs_le.mp herr
      have hkq : (25 : ℚ) * k + (n % 25 : ℕ) = (n : ℚ) := by exact_mod_cast hdm
      have hrq1 : (1 : ℚ) ≤ ((n % 25 : ℕ) : ℚ) := by exact_mod_cast hr1
      have hrq2 : ((n % 25 : ℕ) : ℚ) ≤ 24 := by exact_mod_cast hr24
      set w := dyVal (roundF32Frac AB.1 AB.2) with hw
      have hlow : (k : ℚ) < w := by
        have hv_lb : (k : ℚ) + 1 / 25 ≤ (n : ℚ) / 25 := by
          rw [← hkq]
          ring_nf
          linarith
        linarith
      have hhigh : w ≤ (k : ℚ) + 1 := by
        have hv_ub : (n : ℚ) / 25 ≤ (k : ℚ) + 24 / 25 := by
          rw [← hkq]
          ring_nf
          linarith
        linarith
      have hceilw : ⌈w⌉ = (k : ℤ) + 1 := by
        rw [Int.ceil_eq_iff]
        constructor
        · push_cast
          linarith
        · push_cast
          linarith
      have hceil : dyCeil (roundF32Frac AB.1 AB.2) = k + 1 := by
        have hz := dyCeil_eq (roundF32Frac AB.1 AB.2)
        rw [← hw, hceilw] at hz
        exact_mod_cast hz
      rw [hceil]
      have hc : (n + 24) / 25 = k + 1 := by omega
      rw [hc]
      exact Nat.max_comm (k + 1) 1

/-- C8 witness: at `n = 26` (within the exact range) the amended formula gives
`estimate_toc_pages 26 = max 1 ⌈26 / 25⌉ = 2`. -/
theorem estimate_toc_pages_eq_ceil_witness :
    26 ≤ 2 ^ 24 ∧ estimate_toc_pages 26 = Nat.max 1 ((26 + 24) / 25) :=
  ⟨by decide, estimate_toc_pages_eq_ceil 26 (by decide)⟩

/-! ### C3 / C4: the compilation pipeline -/

theorem stampDocuments_ok (env : PipelineEnv) (h : ∀ i, env.stamp_err i = none) :
    ∀ (count start : ℕ), (stampDocuments env start count).2 = none ∧
      ∀ x ∈ (stampDocuments env start count).1, ∃ i, x = PipelineStep.stamp i := by
  intro count
  induction count with
  | zero => intro start; exact ⟨rfl, by intro x hx; simp [stampDocuments] at hx⟩
  | succ c ih =>
    intro start
    rw [stampDocuments, h start]
    obtain ⟨ih1, ih2⟩ := ih (start + 1)
    refine ⟨ih1, ?_⟩
    intro x hx
    rcases List.mem_cons.mp hx with hx | hx
    · exact ⟨start, hx⟩
    · exact ih2 x hx

/-- C4: when the output directory can be created and at least one document's
file is missing, `compile_bundle` returns `Ok` with a structured failure: one
"Document not found" error per missing document (all accumulated), no PDF
path, empty TOC, zero pages — and the only pipeline step attempted is the
directory creation (no TOC render, stamping, merge, or bookmark pass). -/
theorem compile_bundle_missing_files (env : PipelineEnv) (documents : List BundleDocument)
    (output_dir bundle_name : String) (style : PaginationStyle)
    (hdir : env.create_dir_err = none)
    (hmiss : ∃ d ∈ documents, env.file_exists d.file_path = false) :
    compile_bundle env documents output_dir bundle_name style =
      (.ok { success := false, pdf_path := none, toc_entries := [], total_pages := 0,
             errors := (documents.filter (fun doc => !env.file_exists doc.file_path)).map
               (fun doc => "Document not found: " ++ doc.file_path),
             warnings := [] }, [.createDir]) := by
  have hne : ((documents.filter (fun doc => !env.file_exists doc.file_path)).map
      (fun doc => "Document not found: " ++ doc.file_path)).isEmpty = false := by
    obtain ⟨d, hd, hdf⟩ := hmiss
    have hmem : d ∈ documents.filter (fun doc => !env.file_exists doc.file_path) :=
      List.mem_filter.mpr ⟨hd, by rw [hdf]; rfl⟩
    cases hfil : documents.filter (fun doc => !env.file_exists doc.file_path) with
    | nil => rw [hfil] at hmem; simp at hmem
    | cons a l => simp [hfil]
  rw [compile_bundle.eq_def, hdir]
  simp only [hne]
  rfl

/-- C3: on the success path (directory created, every file present, nonempty
document list, all I/O succeeding), `compile_bundle` renders the TOC exactly
once; the returned `toc_entries` equal `calculate_toc_preview` applied with the
renderer's *actual* page count for the first (estimate-budget) entry list —
which coincides with the estimate-budget entries when the two counts agree —
and `total_pages` is the last entry's `end_page`.  No second re-flow happens:
the accepted entries are computed from the single rendered count, not from a
fixed point. -/
theorem compile_bundle_reflow_once (env : PipelineEnv) (documents : List BundleDocument)
    (output_dir bundle_name : String) (style : PaginationStyle)
    (hdir : env.create_dir_err = none)
    (hex : ∀ d ∈ documents, env.file_exists d.file_path = true)
    (hne : documents ≠ [])
    (htoc : env.toc_render_err = none)
    (hstamp : ∀ i, env.stamp_err i = none)
    (hmerge : env.merge_err = none)
    (hbook : env.bookmarks_err = none) :
    ∃ (r : CompileResult) (steps : List PipelineStep),
      compile_bundle env documents output_dir bundle_name style = (.ok r, steps) ∧
      r.toc_entries = calculate_toc_preview documents
        (generate_toc_pdf_page_count
          (calculate_toc_preview documents (estimate_toc_pages documents.length))) ∧
      (r.toc_entries.getLast?).map (·.end_page) = some r.total_pages ∧
      steps.count PipelineStep.tocRender = 1 := by
  have hfilter : documents.filter (fun doc => !env.file_exists doc.file_path) = [] := by
    rw [List.filter_eq_nil_iff]
    intro a ha
    rw [hex a ha]
    decide
  have hdocs : documents.isEmpty = false := by
    cases documents with
    | nil => exact absurd rfl hne
    | cons d rest => rfl
  obtain ⟨hs2, hs1⟩ := stampDocuments_ok env hstamp documents.length 0
  rw [compile_bundle.eq_def, hdir, hfilter]
  simp only [List.map_nil, List.isEmpty_nil, hdocs, htoc, hs2, hmerge, hbook]
  set est := estimate_toc_pages documents.length with hest
  set first := calculate_toc_preview documents est with hfirst
  set actual := generate_toc_pdf_page_count first with hactual
  have hlen : ∀ t : ℕ, (calculate_toc_preview documents t).length = documents.length :=
    fun t => calculate_toc_preview_go_length documents 0 (t + 1)
  have hnonnil : ∀ t : ℕ, calculate_toc_preview documents t ≠ [] := by
    intro t hnil
    have := hlen t
    rw [hnil] at this
    cases documents with
    | nil => exact hne rfl
    | cons d rest => simp at this
  have hcount : ([PipelineStep.createDir, PipelineStep.tocRender] ++
      (stampDocuments env 0 documents.length).1 ++
      [PipelineStep.merge, PipelineStep.bookmarks, PipelineStep.cleanup]).count
        PipelineStep.tocRender = 1 := by
    rw [List.count_append, List.count_append]
    have hz : ((stampDocuments env 0 documents.length).1).count PipelineStep.tocRender = 0 := by
      rw [List.count_eq_zero]
      intro hmem
      obtain ⟨i, hi⟩ := hs1 _ hmem
      cases hi
    rw [hz]
    decide
  by_cases hcase : actual ≠ est
  · rw [if_pos hcase]
    obtain ⟨last, hlast⟩ := Option.isSome_iff_exists.mp
      (List.getLast?_isSome.mpr (hnonnil actual))
    refine ⟨_, _, rfl, ?_, ?_, hcount⟩
    · rfl
    · simp only [hlast]
      rfl
  · rw [if_neg hcase]
    push_neg at hcase
    obtain ⟨last, hlast⟩ := Option.isSome_iff_exists.mp
      (List.getLast?_isSome.mpr (hnonnil est))
    refine ⟨_, _, rfl, ?_, ?_, hcount⟩
    · rw [hfirst, hcase]
    · simp only [hlast]
      rfl

/-- C3 witness: a concrete two-document bundle in an all-success environment. -/
theorem compile_bundle_reflow_once_witness :
    (({ create_dir_err := none, file_exists := fun _ => true, toc_render_err := none,
        stamp_err := fun _ => none, merge_err := none,
        bookmarks_err := none } : PipelineEnv).create_dir_err = none ∧
      (∀ d ∈ ([⟨"1", "/a", "Tab 1", "A", 5⟩, ⟨"2", "/b", "Tab 2", "B", 3⟩] :
          List BundleDocument),
        ({ create_dir_err := none, file_exists := fun _ => true, toc_render_err := none,
           stamp_err := fun _ => none, merge_err := none,
           bookmarks_err := none } : PipelineEnv).file_exists d.file_path = true) ∧
      ([⟨"1", "/a", "Tab 1", "A", 5⟩, ⟨"2", "/b", "Tab 2", "B", 3⟩] :
          List BundleDocument) ≠ [] ∧
      (∀ i, ({ create_dir_err := none, file_exists := fun _ => true, toc_render_err := none,
               stamp_err := fun _ => none, merge_err := none,
               bookmarks_err := none } : PipelineEnv).stamp_err i = none)) ∧
    (∃ (r : CompileResult) (steps : List PipelineStep),
      compile_bundle
        { create_dir_err := none, file_exists := fun _ => true, toc_render_err := none,
          stamp_err := fun _ => none, merge_err := none, bookmarks_err := none }
        [⟨"1", "/a", "Tab 1", "A", 5⟩, ⟨"2", "/b", "Tab 2", "B", 3⟩]
        "/out" "bundle" PaginationStyle.default = (.ok r, steps) ∧
      r.toc_entries = calculate_toc_preview
        [⟨"1", "/a", "Tab 1", "A", 5⟩, ⟨"2", "/b", "Tab 2", "B", 3⟩]
        (generate_toc_pdf_page_count
          (calculate_toc_preview [⟨"1", "/a", "Tab 1", "A", 5⟩, ⟨"2", "/b", "Tab 2", "B", 3⟩]
            (estimate_toc_pages 2))) ∧
      (r.toc_entries.getLast?).map (·.end_page) = some r.total_pages ∧
      steps.count PipelineStep.tocRender = 1) := by
  refine ⟨⟨rfl, by decide, by decide, fun i => rfl⟩, ?_⟩
  exact compile_bundle_reflow_once _ _ "/out" "bundle" PaginationStyle.default rfl
    (by decide) (by decide) rfl (fun i => rfl) rfl rfl

/-- C4 witness: one document whose file is missing. -/
theorem compile_bundle_missing_files_witness :
    (({ create_dir_err := none, file_exists := fun _ => false, toc_render_err := none,
        stamp_err := fun _ => none, merge_err := none,
        bookmarks_err := none } : PipelineEnv).create_dir_err = none ∧
      (∃ d ∈ ([⟨"1", "/missing.pdf", "Tab 1", "A", 5⟩] : List BundleDocument),
        ({ create_dir_err := none, file_exists := fun _ => false, toc_render_err := none,
           stamp_err := fun _ => none, merge_err := none,
           bookmarks_err := none } : PipelineEnv).file_exists d.file_path = false)) ∧
    compile_bundle
      { create_dir_err := none, file_exists := fun _ => false, toc_render_err := none,
        stamp_err := fun _ => none, merge_err := none, bookmarks_err := none }
      [⟨"1", "/missing.pdf", "Tab 1", "A", 5⟩] "/out" "bundle" PaginationStyle.default =
      (.ok { success := false, pdf_path := none, toc_entries := [], total_pages := 0,
             errors := (([⟨"1", "/missing.pdf", "Tab 1", "A", 5⟩] :
                 List BundleDocument).filter (fun doc => !(fun _ => false) doc.file_path)).map
               (fun doc => "Document not found: " ++ doc.file_path),
             warnings := [] }, [.createDir]) := by
  refine ⟨⟨rfl, by decide⟩, ?_⟩
  exact compile_bundle_missing_files _ _ "/out" "bundle" PaginationStyle.default rfl (by decide)

/-! ### Low-level PDF object model (the `lopdf` types used by `bundle.rs`)

`lopdf::ObjectId` is a `(u32, u16)` pair; `lopdf::Document` keeps its objects
in a `BTreeMap<ObjectId, Object>` (iterated in ascending key order) together
with the trailer dictionary and the running `max_id`.  The map is modelled as
an association list kept in ascending key order; `mapInsert` is the ordered
map insertion.  Byte strings (`Vec<u8>`) are `List ℕ`. -/

/-- `lopdf::ObjectId = (u32, u16)`. -/
abbrev ObjectId := ℕ × ℕ

/-- `lopdf::Object` (the variants used by `bundle.rs`). -/
inductive Object where
  | null
  | boolean (b : Bool)
  | integer (i : ℤ)
  | real (r : ℚ)
  | name (s : String)
  | string (bytes : List ℕ)
  | reference (id : ObjectId)
  | array (xs : List Object)
  | dict (entries : List (String × Object))
  | stream (sdict : List (String × Object)) (content : List ℕ)

/-- Lexicographic order on object ids (the `Ord` instance of `(u32, u16)`). -/
def objIdLt (x y : ObjectId) : Prop := x.1 < y.1 ∨ (x.1 = y.1 ∧ x.2 < y.2)

instance (x y : ObjectId) : Decidable (objIdLt x y) := by
  unfold objIdLt
  infer_instance

/-- `lopdf::Document`: object map (ascending key order), trailer, `max_id`. -/
structure Document where
  objects : List (ObjectId × Object)
  trailer : List (String × Object)
  max_id : ℕ

/-- `lopdf::Dictionary::get`. -/
def dictGet (d : List (String × Object)) (k : String) : Option Object :=
  (d.find? (fun p => p.1 = k)).map (·.2)

/-- `lopdf::Dictionary::set`: replace in place, or append a new entry. -/
def dictSet : List (String × Object) → String → Object → List (String × Object)
  | [], k, v => [(k, v)]
  | (k0, v0) :: rest, k, v =>
    if k0 = k then (k, v) :: rest else (k0, v0) :: dictSet rest k v

/-- `Document::get_object`: plain map lookup. -/
def getObject (d : Document) (id : ObjectId) : Option Object :=
  (d.objects.find? (fun p => p.1 = id)).map (·.2)

/-- `Document::get_object_mut` followed by assignment: update the value stored
at an existing key (no insertion when the key is absent). -/
def setObject (d : Document) (id : ObjectId) (o : Object) : Document :=
  { d with objects := d.objects.map (fun p => if p.1 = id then (id, o) else p) }

/-- `BTreeMap::insert`, on the ordered association list. -/
def mapInsert : List (ObjectId × Object) → ObjectId → Object → List (ObjectId × Object)
  | [], id, o => [(id, o)]
  | (k, v) :: rest, id, o =>
    if id = k then (id, o) :: rest
    else if objIdLt id k then (id, o) :: (k, v) :: rest
    else (k, v) :: mapInsert rest id o

/-- The `max_id` scan of `merge_pdfs_simple` (lines 249-254): the largest
object number among the map keys. -/
def maxObjNum (d : Document) : ℕ :=
  d.objects.foldl (fun acc p => Nat.max acc p.1.1) 0

/-- `Document::add_object`: bump `max_id` and insert at `(max_id, 0)`. -/
def addObject (d : Document) (o : Object) : Document × ObjectId :=
  let id : ObjectId := (d.max_id + 1, 0)
  ({ objects := mapInsert d.objects id o, trailer := d.trailer, max_id := d.max_id + 1 }, id)

mutual

/-- `update_references` (lines 300-324): deep-rewrite every reference through
arrays, dictionaries and stream dictionaries using the old → new id map. -/
def update_references (id_map : List (ObjectId × ObjectId)) : Object → Object
  | .reference id =>
    match id_map.find? (fun pr => pr.1 = id) with
    | some pr => .reference pr.2
    | none => .reference id
  | .array xs => .array (updateRefsList id_map xs)
  | .dict entries => .dict (updateRefsEntries id_map entries)
  | .stream sdict content => .stream (updateRefsEntries id_map sdict) content
  | o => o

def updateRefsList (id_map : List (ObjectId × ObjectId)) : List Object → List Object
  | [] => []
  | x :: xs => update_references id_map x :: updateRefsList id_map xs

def updateRefsEntries (id_map : List (ObjectId × ObjectId)) :
    List (String × Object) → List (String × Object)
  | [] => []
  | (k, v) :: ps => (k, update_references id_map v) :: updateRefsEntries id_map ps

end

/-- One node of the page-tree walk of `Document::get_pages`: a `Page` leaf
yields itself, a `Pages` node recurses through its `Kids` references in order
(depth-first, left to right). -/
def pagesFromNode (d : Document) : ℕ → ObjectId → List ObjectId
  | 0, _ => []
  | fuel + 1, id =>
    match getObject d id with
    | some (.dict dd) =>
      match dictGet dd "Type" with
      | some (.name "Page") => [id]
      | some (.name "Pages") =>
        match dictGet dd "Kids" with
        | some (.array kids) =>
          kids.foldr
            (fun k acc =>
              (match k with
               | .reference kid => pagesFromNode d fuel kid
               | _ => []) ++ acc)
            []
        | _ => []
      | _ => []
    | _ => []

/-- `Document::get_pages().values()` in order: resolve the trailer `Root`
reference, the catalog's `Pages` reference, and walk the page tree.  The fuel
`d.objects.length + 1` suffices for any acyclic tree stored in the map. -/
def pageList (d : Document) : List ObjectId :=
  match dictGet d.trailer "Root" with
  | some (.reference r) =>
    match getObject d r with
    | some (.dict cat) =>
      match dictGet cat "Pages" with
      | some (.reference p) => pagesFromNode d (d.objects.length + 1) p
      | _ => []
    | _ => []
  | _ => []

/-! ### `merge_pdfs_simple` (lines 218-297) -/

/-- The nested `if let` chain of lines 271-287: follow trailer `Root` to the
catalog, the catalog's `Pages` reference to the base page-tree root, push a
reference to the new page object onto its `Kids` array and increment its
integer `Count`. -/
def pushKid (b : Document) (new_id : ObjectId) : Document :=
  match dictGet b.trailer "Root" with
  | some (.reference catalog_ref) =>
    match getObject b catalog_ref with
    | some (.dict catalog) =>
      match dictGet catalog "Pages" with
      | some (.reference pages_ref) =>
        match getObject b pages_ref with
        | some (.dict pages_dict) =>
          let pages_dict :=
            match dictGet pages_dict "Kids" with
            | some (.array kids) =>
              dictSet pages_dict "Kids" (.array (kids ++ [.reference new_id]))
            | _ => pages_dict
          let pages_dict :=
            match dictGet pages_dict "Count" with
            | some (.integer count) => dictSet pages_dict "Count" (.integer (count + 1))
            | _ => pages_dict
          setObject b pages_ref (.dict pages_dict)
        | _ => b
      | _ => b
    | _ => b
  | _ => b

/-- The body of the `for path in pdf_paths.iter().skip(1)` loop (lines 241-290):
clone every object of `doc` into `base` under ids shifted by `max_id + 1`
(building the old → new `id_map` in the same pass), then iterate the map in
ascending old-id order, deep-rewriting references in each cloned object and
appending every cloned source page to the base page tree. -/
def shiftId (M : ℕ) (id : ObjectId) : ObjectId := (id.1 + M + 1, id.2)

/-- One iteration of the clone loop (lines 257-262): record the id mapping and
insert the object under its shifted id. -/
def cloneStep (M : ℕ) (st : List (ObjectId × ObjectId) × Document)
    (p : ObjectId × Object) : List (ObjectId × ObjectId) × Document :=
  (st.1 ++ [(p.1, shiftId M p.1)],
   { st.2 with objects := mapInsert st.2.objects (shiftId M p.1) p.2 })

/-- One iteration of the reference-update loop (lines 265-290): deep-rewrite
references in the cloned object, and append the clone to the base page tree if
the old id was a source page. -/
def refStep (id_map : List (ObjectId × ObjectId)) (src_pages : List ObjectId)
    (b : Document) (pr : ObjectId × ObjectId) : Document :=
  let b1 : Document :=
    match getObject b pr.2 with
    | some obj => setObject b pr.2 (update_references id_map obj)
    | none => b
  if src_pages.contains pr.1 then pushKid b1 pr.2 else b1

def mergeOne (base doc : Document) : Document :=
  let src_pages : List ObjectId := pageList doc
  let max_id : ℕ := maxObjNum base
  let cloned : List (ObjectId × ObjectId) × Document :=
    doc.objects.foldl (cloneStep max_id) ([], base)
  let id_map := cloned.1
  id_map.foldl (refStep id_map src_pages) cloned.2

/-- `merge_pdfs_simple`, with the file system abstracted away: the input is
the list of already-loaded documents (the Rust code loads each path twice —
once to count pages, once to merge — and loading is deterministic, so both
loads yield the same document).  Returns the merged document together with the
function's return value `total_pages`. -/
def merge_pdfs_simple (docs : List Document) : Except String (Document × ℕ) :=
  match docs with
  | [] => .error "No PDFs to merge"
  | base :: rest =>
    let total_pages := (docs.map (fun d => (pageList d).length)).sum
    .ok (rest.foldl mergeOne base, total_pages)

/-! ### Page stamper (`get_page_dimensions` / `inject_page_stamp` /
`inject_pagination`, lines 327-464) -/

/-- Width/height extraction from a `MediaBox` array of length ≥ 4
(`arr[2]`/`arr[3]`, `Real` or `Integer`, defaulting to 595/842). -/
def media_box_dims (arr : List Object) : ℚ × ℚ :=
  ((match arr.get? 2 with
    | some (Object.real n) => n
    | some (Object.integer n) => (n : ℚ)
    | _ => 595),
   (match arr.get? 3 with
    | some (Object.real n) => n
    | some (Object.integer n) => (n : ℚ)
    | _ => 842))

/-- The array view of an optional object (used by the `Reference` arm of
`get_page_dimensions`, whose inner `if let` only fires on arrays). -/
def asArray : Option Object → Option (List Object)
  | some (.array xs) => some xs
  | _ => none

/-- Dimensions read through a dereferenced `MediaBox`: `Some` only for an
array of length ≥ 4, everything else falls through to the default. -/
def dims_of_obj (o : Option Object) : Option (ℚ × ℚ) :=
  match asArray o with
  | some arr => if 4 ≤ arr.length then some (media_box_dims arr) else none
  | none => none

/-- `get_page_dimensions` (lines 327-367): every control path returns `Ok`;
unreadable or missing boxes default to A4 in points, `(595, 842)`. -/
def get_page_dimensions (doc : Document) (page_id : ObjectId) :
    Except String (ℚ × ℚ) :=
  match getObject doc page_id with
  | some (.dict page_dict) =>
    match dictGet page_dict "MediaBox" with
    | some (.array arr) =>
      if 4 ≤ arr.length then .ok (media_box_dims arr) else .ok (595, 842)
    | some (.reference ref_id) =>
      match dims_of_obj (getObject doc ref_id) with
      | some wh => .ok wh
      | none => .ok (595, 842)
    | _ => .ok (595, 842)
  | _ => .ok (595, 842)

/-- The stamp label (lines 377-381). -/
def stamp_text_of (style : PaginationStyle) (page_num total_pages : ℕ) : String :=
  match style.format with
  | "Page X" => "Page " ++ toString page_num
  | "X" => toString page_num
  | _ => "Page " ++ toString page_num ++ " of " ++ toString total_pages

/-- The stamp position (lines 387-391); unknown positions default to
top-right. -/
def stamp_xy (style : PaginationStyle) (width height : ℚ) : ℚ × ℚ :=
  match style.position with
  | "bottom-center" => (width / 2 - 30, 25)
  | "top-center" => (width / 2 - 30, height - 25)
  | _ => (width - 100, height - 25)

/-- Bytes of a string (all stamp text is ASCII). -/
def strBytes (s : String) : List ℕ := s.data.map Char.toNat

/-- Decimal rendering of a numeric operand in the content stream.  Rust
formats `f32` values with shortest round-trip notation; this model renders the
exact rational (integers plainly, other values as `num/den`).  None of the
stamping claims depend on the digits of this fragment. -/
def fmtNum (q : ℚ) : String :=
  if q.den = 1 then toString q.num else toString q.num ++ "/" ++ toString q.den

/-- The text-drawing operator fragment of lines 394-397:
`q BT /Helvetica {size} Tf {x} {y} Td ({text}) Tj ET Q`. -/
def stamp_content (style : PaginationStyle) (x y : ℚ) (stamp_text : String) : List ℕ :=
  strBytes ("q BT /Helvetica " ++ fmtNum style.font_size ++ " Tf " ++ fmtNum x ++ " " ++
    fmtNum y ++ " Td (" ++ stamp_text ++ ") Tj ET Q")

/-- The existing-content read of lines 400-419: only a `Contents` entry that is
a direct reference to a stream object yields bytes; every other shape reads as
empty. -/
def existing_content_bytes (doc : Document) (page_id : ObjectId) : List ℕ :=
  match getObject doc page_id with
  | some (.dict page_dict) =>
    match dictGet page_dict "Contents" with
    | some (.reference stream_id) =>
      match getObject doc stream_id with
      | some (.stream _ content) => content
      | _ => []
    | _ => []
  | _ => []

/-- `inject_page_stamp` (lines 370-439).  The Rust function mutates `doc` in
place and returns `Ok(())`; the model returns the updated document. -/
def inject_page_stamp (doc : Document) (page_id : ObjectId)
    (page_num total_pages : ℕ) (style : PaginationStyle) : Except String Document :=
  let stamp_text := stamp_text_of style page_num total_pages
  match get_page_dimensions doc page_id with
  | .error e => .error e
  | .ok wh =>
    let xy := stamp_xy style wh.1 wh.2
    let content := stamp_content style xy.1 xy.2 stamp_text
    let new_content := existing_content_bytes doc page_id ++ strBytes "\n" ++ content ++
      strBytes "\n"
    let stream_dict := dictSet [] "Length" (.integer (new_content.length : ℤ))
    let added := addObject doc (.stream stream_dict new_content)
    let doc2 := added.1
    let new_stream_id := added.2
    match getObject doc2 page_id with
    | some (.dict page_dict) =>
      .ok (setObject doc2 page_id (.dict (dictSet page_dict "Contents"
        (.reference new_stream_id))))
    | _ => .ok doc2

/-- The per-page stamping loop of `inject_pagination` (lines 455-458):
`page_num = start_page + i`, failures propagate. -/
def stampAll (doc : Document) : List ObjectId → ℕ → ℕ → PaginationStyle →
    Except String Document
  | [], _, _, _ => .ok doc
  | page_id :: rest, page_num, total_pages, style =>
    match inject_page_stamp doc page_id page_num total_pages style with
    | .error e => .error e
    | .ok doc2 => stampAll doc2 rest (page_num + 1) total_pages style

/-- `inject_pagination` (lines 442-464), with the file system abstracted: the
load result and the save operation are oracle parameters carrying the
underlying I/O outcome. -/
def inject_pagination (load : Except String Document)
    (save : Document → Except String Unit) (start_page total_pages : ℕ)
    (style : PaginationStyle) : Except String ℕ :=
  match load with
  | .error e => .error ("Failed to load PDF: " ++ e)
  | .ok doc =>
    let page_ids := pageList doc
    let page_count := page_ids.length
    match stampAll doc page_ids start_page total_pages style with
    | .error e => .error e
    | .ok doc2 =>
      match save doc2 with
      | .error e => .error ("Failed to save stamped PDF: " ++ e)
      | .ok _ => .ok page_count

/-! ### C10: the stamping path is infallible -/

theorem get_page_dimensions_ok (doc : Document) (page_id : ObjectId) :
    ∃ wh, get_page_dimensions doc page_id = Except.ok wh := by
  unfold get_page_dimensions
  repeat' split
  all_goals exact ⟨_, rfl⟩

theorem inject_page_stamp_ok (doc : Document) (page_id : ObjectId)
    (page_num total_pages : ℕ) (style : PaginationStyle) :
    ∃ d2, inject_page_stamp doc page_id page_num total_pages style = Except.ok d2 := by
  obtain ⟨wh, hwh⟩ := get_page_dimensions_ok doc page_id
  unfold inject_page_stamp
  simp only [hwh]
  repeat' split
  all_goals exact ⟨_, rfl⟩

theorem stampAll_ok (page_ids : List ObjectId) : ∀ (doc : Document)
    (page_num total_pages : ℕ) (style : PaginationStyle),
    ∃ d2, stampAll doc page_ids page_num total_pages style = Except.ok d2 := by
  induction page_ids with
  | nil => intro doc n t s; exact ⟨doc, rfl⟩
  | cons pid rest ih =>
    intro doc n t s
    obtain ⟨d2, h2⟩ := inject_page_stamp_ok doc pid n t s
    rw [stampAll]
    simp only [h2]
    exact ih d2 (n + 1) t s

/-- C10: `get_page_dimensions` and `inject_page_stamp` never return an error
(missing or unreadable MediaBoxes default to 595×842, unknown format/position
strings fall back to "Page X of Y" / top-right), so the per-page loop of
`inject_pagination` is infallible: `inject_pagination` fails exactly when the
initial load or the final save fails, and succeeds (returning the page count)
whenever both succeed. -/
theorem inject_pagination_fails_only_at_io :
    (∀ (doc : Document) (page_id : ObjectId),
      ∃ wh, get_page_dimensions doc page_id = Except.ok wh) ∧
    (∀ (doc : Document) (page_id : ObjectId) (page_num total_pages : ℕ)
        (style : PaginationStyle),
      ∃ d2, inject_page_stamp doc page_id page_num total_pages style = Except.ok d2) ∧
    (∀ (save : Document → Except String Unit) (start_page total_pages : ℕ)
        (style : PaginationStyle) (e : String),
      inject_pagination (.error e) save start_page total_pages style =
        .error ("Failed to load PDF: " ++ e)) ∧
    (∀ (doc : Document) (save : Document → Except String Unit)
        (start_page total_pages : ℕ) (style : PaginationStyle),
      (∀ d2, save d2 = .ok ()) →
      inject_pagination (.ok doc) save start_page total_pages style =
        .ok (pageList doc).length) ∧
    (∀ (doc : Document) (save : Document → Except String Unit)
        (start_page total_pages : ℕ) (style : PaginationStyle) (es : String),
      (∀ d2, save d2 = .error es) →
      inject_pagination (.ok doc) save start_page total_pages style =
        .error ("Failed to save stamped PDF: " ++ es)) := by
  refine ⟨get_page_dimensions_ok, inject_page_stamp_ok, fun save sp tp st e => rfl, ?_, ?_⟩
  · intro doc save sp tp st hsave
    obtain ⟨d2, h2⟩ := stampAll_ok (pageList doc) doc sp tp st
    unfold inject_pagination
    simp only [h2, hsave d2]
  · intro doc save sp tp st es hsave
    obtain ⟨d2, h2⟩ := stampAll_ok (pageList doc) doc sp tp st
    unfold inject_pagination
    simp only [h2, hsave d2]

/-- C10 witness: a concrete one-page document with an always-succeeding and an
always-failing save oracle. -/
theorem inject_pagination_fails_only_at_io_witness :
    ((∀ d2 : Document,
        ((fun _ => Except.ok ()) : Document → Except String Unit) d2 = Except.ok ()) ∧
      inject_pagination
        (.ok { objects :=
                 [ ((1, 0), .dict [("Type", .name "Catalog"), ("Pages", .reference (2, 0))]),
                   ((2, 0), .dict [("Type", .name "Pages"),
                     ("Kids", .array [.reference (3, 0)]), ("Count", .integer 1)]),
                   ((3, 0), .dict [("Type", .name "Page"), ("Parent", .reference (2, 0))]) ],
               trailer := [("Root", .reference (1, 0))], max_id := 3 })
        (fun _ => Except.ok ()) 2 9 PaginationStyle.default =
        .ok (pageList { objects :=
                          [ ((1, 0), .dict [("Type", .name "Catalog"),
                              ("Pages", .reference (2, 0))]),
                            ((2, 0), .dict [("Type", .name "Pages"),
                              ("Kids", .array [.reference (3, 0)]), ("Count", .integer 1)]),
                            ((3, 0), .dict [("Type", .name "Page"),
                              ("Parent", .reference (2, 0))]) ],
                        trailer := [("Root", .reference (1, 0))], max_id := 3 }).length) ∧
    ((∀ d2 : Document,
        ((fun _ => Except.error "disk full") : Document → Except String Unit) d2 =
          Except.error "disk full") ∧
      inject_pagination (.error "corrupt") (fun _ => Except.error "disk full") 2 9
        PaginationStyle.default = .error ("Failed to load PDF: " ++ "corrupt")) := by
  constructor
  · exact ⟨fun d2 => rfl,
      inject_pagination_fails_only_at_io.2.2.2.1 _ _ 2 9 PaginationStyle.default
        (fun d2 => rfl)⟩
  · exact ⟨fun d2 => rfl,
      inject_pagination_fails_only_at_io.2.2.1 _ 2 9 PaginationStyle.default "corrupt"⟩

/-! ### Map and dictionary access lemmas -/

/-- Lookup in an association list of objects, as `getObject` does on
`d.objects`. -/
def lookupObj (l : List (ObjectId × Object)) (id : ObjectId) : Option Object :=
  (l.find? (fun p => p.1 = id)).map (·.2)

theorem getObject_eq_lookup (d : Document) (id : ObjectId) :
    getObject d id = lookupObj d.objects id := rfl

theorem lookupObj_cons (p : ObjectId × Object) (rest : List (ObjectId × Object))
    (id : ObjectId) :
    lookupObj (p :: rest) id = if p.1 = id then some p.2 else lookupObj rest id := by
  by_cases h : p.1 = id
  · rw [if_pos h]
    unfold lookupObj
    rw [List.find?_cons_of_pos _ (by simpa using h)]
    rfl
  · rw [if_neg h]
    unfold lookupObj
    rw [List.find?_cons_of_neg _ (by simpa using h)]

theorem dictGet_cons (p : String × Object) (rest : List (String × Object))
    (k : String) :
    dictGet (p :: rest) k = if p.1 = k then some p.2 else dictGet rest k := by
  by_cases h : p.1 = k
  · rw [if_pos h]
    unfold dictGet
    rw [List.find?_cons_of_pos _ (by simpa using h)]
    rfl
  · rw [if_neg h]
    unfold dictGet
    rw [List.find?_cons_of_neg _ (by simpa using h)]

theorem dictGet_dictSet_self (d : List (String × Object)) (k : String) (v : Object) :
    dictGet (dictSet d k v) k = some v := by
  induction d with
  | nil => rw [dictSet, dictGet_cons]; simp
  | cons p rest ih =>
    rcases p with ⟨k0, v0⟩
    rw [dictSet]
    by_cases hk : k0 = k
    · rw [if_pos hk, dictGet_cons]
      simp
    · rw [if_neg hk, dictGet_cons, if_neg (fun he : (k0, v0).1 = k => hk he)]
      exact ih

theorem dictGet_dictSet_ne (d : List (String × Object)) (k k' : String) (v : Object)
    (h : k' ≠ k) : dictGet (dictSet d k v) k' = dictGet d k' := by
  induction d with
  | nil =>
    rw [dictSet, dictGet_cons, if_neg (fun he : (k, v).1 = k' => h (id he).symm)]
  | cons p rest ih =>
    rcases p with ⟨k0, v0⟩
    rw [dictSet]
    by_cases hk : k0 = k
    · rw [if_pos hk, dictGet_cons, dictGet_cons]
      subst hk
      rw [if_neg (fun he : (k0, v).1 = k' => h (id he).symm),
        if_neg (fun he : (k0, v0).1 = k' => h (id he).symm)]
    · rw [if_neg hk, dictGet_cons, dictGet_cons]
      by_cases h0 : (k0, v0).1 = k'
      · rw [if_pos h0, if_pos h0]
      · rw [if_neg h0, if_neg h0]
        exact ih

theorem lookupObj_mapInsert_self (l : List (ObjectId × Object)) (id : ObjectId)
    (o : Object) : lookupObj (mapInsert l id o) id = some o := by
  induction l with
  | nil => rw [mapInsert, lookupObj_cons]; simp
  | cons p rest ih =>
    rcases p with ⟨k, v⟩
    rw [mapInsert]
    by_cases h1 : id = k
    · rw [if_pos h1, lookupObj_cons]; simp
    · rw [if_neg h1]
      by_cases h2 : objIdLt id k
      · rw [if_pos h2, lookupObj_cons]; simp
      · rw [if_neg h2, lookupObj_cons,
          if_neg (fun he : (k, v).1 = id => h1 he.symm)]
        exact ih

theorem lookupObj_mapInsert_ne (l : List (ObjectId × Object)) (id id' : ObjectId)
    (o : Object) (h : id' ≠ id) :
    lookupObj (mapInsert l id o) id' = lookupObj l id' := by
  induction l with
  | nil =>
    rw [mapInsert, lookupObj_cons, if_neg (fun he : (id, o).1 = id' => h (id_eq id ▸ he).symm)]
  | cons p rest ih =>
    rcases p with ⟨k, v⟩
    rw [mapInsert]
    by_cases h1 : id = k
    · rw [if_pos h1, lookupObj_cons, lookupObj_cons]
      subst h1
      rw [if_neg (fun he : (id, o).1 = id' => h (id_eq id ▸ he).symm),
        if_neg (fun he : (id, v).1 = id' => h (id_eq id ▸ he).symm)]
    · rw [if_neg h1]
      by_cases h2 : objIdLt id k
      · rw [if_pos h2, lookupObj_cons (id, o),
          if_neg (fun he : (id, o).1 = id' => h (id_eq id ▸ he).symm)]
      · rw [if_neg h2, lookupObj_cons, lookupObj_cons]
        by_cases h0 : (k, v).1 = id'
        · rw [if_pos h0, if_pos h0]
        · rw [if_neg h0, if_neg h0]
          exact ih

theorem lookupObj_setmap_self (l : List (ObjectId × Object)) (id : ObjectId)
    (o : Object) :
    lookupObj (l.map (fun p => if p.1 = id then (id, o) else p)) id =
      (lookupObj l id).map (fun _ => o) := by
  induction l with
  | nil => rfl
  | cons p rest ih =>
    rcases p with ⟨k, v⟩
    rw [List.map_cons]
    by_cases h : (k, v).1 = id
    · rw [if_pos h, lookupObj_cons, lookupObj_cons, if_pos h]
      simp
    · rw [if_neg h, lookupObj_cons, lookupObj_cons, if_neg h, if_neg h]
      exact ih

theorem lookupObj_setmap_ne (l : List (ObjectId × Object)) (id id' : ObjectId)
    (o : Object) (h : id' ≠ id) :
    lookupObj (l.map (fun p => if p.1 = id then (id, o) else p)) id' =
      lookupObj l id' := by
  induction l with
  | nil => rfl
  | cons p rest ih =>
    rcases p with ⟨k, v⟩
    rw [List.map_cons]
    by_cases hk : (k, v).1 = id
    · rw [if_pos hk, lookupObj_cons, lookupObj_cons,
        if_neg (fun he : (id, o).1 = id' => h (id_eq id ▸ he).symm),
        if_neg (fun he : (k, v).1 = id' => h (he.symm.trans hk))]
      exact ih
    · rw [if_neg hk, lookupObj_cons, lookupObj_cons]
      by_cases h0 : (k, v).1 = id'
      · rw [if_pos h0, if_pos h0]
      · rw [if_neg h0, if_neg h0]
        exact ih

theorem lookupObj_fresh (l : List (ObjectId × Object)) (m j : ℕ)
    (hb : ∀ p ∈ l, p.1.1 ≤ m) : lookupObj l (m + 1, j) = none := by
  have hnone : l.find? (fun p => p.1 = (m + 1, j)) = none := by
    rw [List.find?_eq_none]
    intro p hp
    simp only [decide_eq_true_eq]
    intro he
    have := hb p hp
    rw [he] at this
    omega
  unfold lookupObj
  rw [hnone]
  rfl

theorem lookupObj_mem (l : List (ObjectId × Object)) (id : ObjectId) (o : Object)
    (h : lookupObj l id = some o) : (id, o) ∈ l := by
  unfold lookupObj at h
  rcases Option.map_eq_some'.mp h with ⟨q, hq, hq2⟩
  have hmem := List.mem_of_find?_eq_some hq
  have hpred := List.find?_some hq
  simp only [decide_eq_true_eq] at hpred
  have hqe : q = (id, o) := by
    rcases q with ⟨a, b⟩
    simp only at hpred hq2
    rw [hpred, hq2]
  rw [hqe] at hmem
  exact hmem

theorem mem_mapInsert (l : List (ObjectId × Object)) (id : ObjectId) (o : Object)
    (p : ObjectId × Object) (h : p ∈ mapInsert l id o) : p = (id, o) ∨ p ∈ l := by
  induction l with
  | nil =>
    rw [mapInsert] at h
    rcases List.mem_cons.mp h with h1 | h1
    · exact Or.inl h1
    · exact Or.inr h1
  | cons q rest ih =>
    rcases q with ⟨k, v⟩
    rw [mapInsert] at h
    by_cases h1 : id = k
    · rw [if_pos h1] at h
      rcases List.mem_cons.mp h with h2 | h2
      · exact Or.inl h2
      · exact Or.inr (List.mem_cons_of_mem _ h2)
    · rw [if_neg h1] at h
      by_cases h2 : objIdLt id k
      · rw [if_pos h2] at h
        rcases List.mem_cons.mp h with h3 | h3
        · exact Or.inl h3
        · exact Or.inr h3
      · rw [if_neg h2] at h
        rcases List.mem_cons.mp h with h3 | h3
        · exact Or.inr (h3 ▸ List.mem_cons_self _ _)
        · rcases ih h3 with h4 | h4
          · exact Or.inl h4
          · exact Or.inr (List.mem_cons_of_mem _ h4)

/-- The document produced by a successful `inject_page_stamp` run on a page
whose dictionary is `pd` and whose previous content bytes are `scontent`:
the new stream is inserted at `(max_id + 1, 0)` and the page's `Contents`
entry is repointed at it. -/
def stampResult (doc : Document) (page_id : ObjectId) (n t : ℕ)
    (style : PaginationStyle) (pd : List (String × Object)) (scontent : List ℕ)
    (w h : ℚ) : Document :=
  let frag := stamp_content style (stamp_xy style w h).1 (stamp_xy style w h).2
    (stamp_text_of style n t)
  let nc := scontent ++ strBytes "\n" ++ frag ++ strBytes "\n"
  setObject
    { objects := mapInsert doc.objects (doc.max_id + 1, 0)
        (.stream [("Length", .integer (nc.length : ℤ))] nc),
      trailer := doc.trailer, max_id := doc.max_id + 1 }
    page_id (.dict (dictSet pd "Contents" (.reference (doc.max_id + 1, 0))))

theorem page_id_ne_fresh (doc : Document) (page_id : ObjectId) (o : Object)
    (hpage : getObject doc page_id = some o)
    (hbound : ∀ p ∈ doc.objects, p.1.1 ≤ doc.max_id) (j : ℕ) :
    page_id ≠ (doc.max_id + 1, j) := by
  have hl : lookupObj doc.objects page_id = some o :=
    (getObject_eq_lookup doc page_id).symm.trans hpage
  have hle : page_id.1 ≤ doc.max_id := hbound _ (lookupObj_mem _ _ _ hl)
  intro he
  rw [he] at hle
  simp at hle

theorem existing_content_bytes_eq (doc : Document) (page_id : ObjectId)
    (pd sdict : List (String × Object)) (sid : ObjectId) (scontent : List ℕ)
    (hpage : getObject doc page_id = some (.dict pd))
    (hcont : dictGet pd "Contents" = some (.reference sid))
    (hstream : getObject doc sid = some (.stream sdict scontent)) :
    existing_content_bytes doc page_id = scontent := by
  unfold existing_content_bytes
  simp only [hpage, hcont, hstream]

theorem inject_page_stamp_run (doc : Document) (page_id : ObjectId) (n t : ℕ)
    (style : PaginationStyle) (pd sdict : List (String × Object))
    (sid : ObjectId) (scontent : List ℕ) (w h : ℚ)
    (hpage : getObject doc page_id = some (.dict pd))
    (hcont : dictGet pd "Contents" = some (.reference sid))
    (hstream : getObject doc sid = some (.stream sdict scontent))
    (hbound : ∀ p ∈ doc.objects, p.1.1 ≤ doc.max_id)
    (hwh : get_page_dimensions doc page_id = Except.ok (w, h)) :
    inject_page_stamp doc page_id n t style =
      Except.ok (stampResult doc page_id n t style pd scontent w h) := by
  have hpne : page_id ≠ (doc.max_id + 1, 0) :=
    page_id_ne_fresh doc page_id _ hpage hbound 0
  have hecb : existing_content_bytes doc page_id = scontent :=
    existing_content_bytes_eq doc page_id pd sdict sid scontent hpage hcont hstream
  have hg2 : ∀ (strm : Object),
      getObject { objects := mapInsert doc.objects (doc.max_id + 1, 0) strm,
                  trailer := doc.trailer, max_id := doc.max_id + 1 } page_id =
        some (Object.dict pd) := by
    intro strm
    rw [getObject_eq_lookup]
    show lookupObj (mapInsert doc.objects (doc.max_id + 1, 0) strm) page_id = _
    rw [lookupObj_mapInsert_ne _ _ _ _ hpne]
    exact hpage
  unfold inject_page_stamp
  simp only [hwh, hecb, addObject, dictSet]
  rw [hg2]
  rfl

/-- The operator fragment stamped on a page of dimensions `w × h`. -/
def stampFrag (style : PaginationStyle) (n t : ℕ) (w h : ℚ) : List ℕ :=
  stamp_content style (stamp_xy style w h).1 (stamp_xy style w h).2
    (stamp_text_of style n t)

/-- The content bytes after one stamp: previous bytes, a newline, the operator
fragment, a newline. -/
def stampedBytes (scontent : List ℕ) (style : PaginationStyle) (n t : ℕ)
    (w h : ℚ) : List ℕ :=
  scontent ++ strBytes "\n" ++ stampFrag style n t w h ++ strBytes "\n"

theorem getObject_mk (objs : List (ObjectId × Object)) (tr : List (String × Object)) (m : ℕ) (rid : ObjectId) :
    getObject { objects := objs, trailer := tr, max_id := m } rid = lookupObj objs rid := rfl

theorem getObject_setObject_self (d : Document) (id : ObjectId) (o : Object) :
    getObject (setObject d id o) id = (getObject d id).map (fun _ => o) := by
  rw [getObject_eq_lookup d id]
  show lookupObj (d.objects.map (fun p => if p.1 = id then (id, o) else p)) id = _
  rw [lookupObj_setmap_self]

theorem getObject_setObject_ne (d : Document) (id rid : ObjectId) (o : Object)
    (h : rid ≠ id) : getObject (setObject d id o) rid = getObject d rid := by
  rw [getObject_eq_lookup d rid]
  show lookupObj (d.objects.map (fun p => if p.1 = id then (id, o) else p)) rid = _
  rw [lookupObj_setmap_ne _ _ _ _ h]

theorem stampResult_page (doc : Document) (page_id : ObjectId) (n t : ℕ)
    (style : PaginationStyle) (pd : List (String × Object)) (scontent : List ℕ)
    (w h : ℚ)
    (hpage : getObject doc page_id = some (.dict pd))
    (hpne : page_id ≠ (doc.max_id + 1, 0)) :
    getObject (stampResult doc page_id n t style pd scontent w h) page_id =
      some (.dict (dictSet pd "Contents" (.reference (doc.max_id + 1, 0)))) := by
  unfold stampResult
  rw [getObject_setObject_self, getObject_mk,
    lookupObj_mapInsert_ne _ _ _ _ hpne, ← getObject_eq_lookup, hpage]
  rfl

theorem stampResult_new_stream (doc : Document) (page_id : ObjectId) (n t : ℕ)
    (style : PaginationStyle) (pd : List (String × Object)) (scontent : List ℕ)
    (w h : ℚ)
    (hpne : page_id ≠ (doc.max_id + 1, 0)) :
    getObject (stampResult doc page_id n t style pd scontent w h)
        (doc.max_id + 1, 0) =
      some (.stream
        [("Length", .integer ((stampedBytes scontent style n t w h).length : ℤ))]
        (stampedBytes scontent style n t w h)) := by
  unfold stampResult
  rw [getObject_setObject_ne _ _ _ _ (fun he => hpne he.symm)]
  rw [getObject_eq_lookup]
  exact lookupObj_mapInsert_self _ _ _

theorem stampResult_other (doc : Document) (page_id : ObjectId) (n t : ℕ)
    (style : PaginationStyle) (pd : List (String × Object)) (scontent : List ℕ)
    (w h : ℚ) (rid : ObjectId)
    (hrp : rid ≠ page_id) (hrn : rid ≠ (doc.max_id + 1, 0)) :
    getObject (stampResult doc page_id n t style pd scontent w h) rid =
      getObject doc rid := by
  unfold stampResult
  rw [getObject_setObject_ne _ _ _ _ hrp]
  rw [getObject_eq_lookup, getObject_eq_lookup]
  exact lookupObj_mapInsert_ne _ _ _ _ hrn

theorem stampResult_max_id (doc : Document) (page_id : ObjectId) (n t : ℕ)
    (style : PaginationStyle) (pd : List (String × Object)) (scontent : List ℕ)
    (w h : ℚ) :
    (stampResult doc page_id n t style pd scontent w h).max_id = doc.max_id + 1 :=
  rfl

theorem stampResult_bound (doc : Document) (page_id : ObjectId) (n t : ℕ)
    (style : PaginationStyle) (pd : List (String × Object)) (scontent : List ℕ)
    (w h : ℚ)
    (hbound : ∀ p ∈ doc.objects, p.1.1 ≤ doc.max_id) :
    ∀ p ∈ (stampResult doc page_id n t style pd scontent w h).objects,
      p.1.1 ≤ (stampResult doc page_id n t style pd scontent w h).max_id := by
  intro p hp
  rw [stampResult_max_id]
  unfold stampResult at hp
  rcases List.mem_map.mp hp with ⟨q, hq, hfq⟩
  have hq1 : q.1.1 ≤ doc.max_id + 1 := by
    rcases mem_mapInsert _ _ _ _ hq with h1 | h1
    · rw [h1]
    · exact Nat.le_succ_of_le (hbound q h1)
  by_cases hc : q.1 = page_id
  · rw [if_pos hc] at hfq
    rw [← hfq]
    show page_id.1 ≤ doc.max_id + 1
    rw [← hc]
    exact hq1
  · rw [if_neg hc] at hfq
    rw [← hfq]
    exact hq1

theorem stampResult_asArray (doc : Document) (page_id : ObjectId) (n t : ℕ)
    (style : PaginationStyle) (pd : List (String × Object)) (scontent : List ℕ)
    (w h : ℚ)
    (hpage : getObject doc page_id = some (.dict pd))
    (hbound : ∀ p ∈ doc.objects, p.1.1 ≤ doc.max_id) :
    ∀ rid, asArray (getObject (stampResult doc page_id n t style pd scontent w h) rid) =
      asArray (getObject doc rid) := by
  intro rid
  have hpne := page_id_ne_fresh doc page_id _ hpage hbound 0
  by_cases h1 : rid = page_id
  · subst h1
    rw [stampResult_page doc rid n t style pd scontent w h hpage hpne, hpage]
    rfl
  · by_cases h2 : rid = (doc.max_id + 1, 0)
    · subst h2
      rw [stampResult_new_stream doc page_id n t style pd scontent w h hpne]
      rw [show getObject doc (doc.max_id + 1, 0) = none from by
        rw [getObject_eq_lookup]
        exact lookupObj_fresh _ _ _ hbound]
      rfl
    · rw [stampResult_other doc page_id n t style pd scontent w h rid h1 h2]

theorem get_page_dimensions_congr (d d' : Document) (pid : ObjectId)
    (pd pd' : List (String × Object))
    (h1 : getObject d pid = some (.dict pd))
    (h2 : getObject d' pid = some (.dict pd'))
    (hmb : dictGet pd' "MediaBox" = dictGet pd "MediaBox")
    (harr : ∀ rid, asArray (getObject d' rid) = asArray (getObject d rid)) :
    get_page_dimensions d' pid = get_page_dimensions d pid := by
  unfold get_page_dimensions
  simp only [h1, h2, hmb]
  cases hm : dictGet pd "MediaBox" with
  | none => rfl
  | some obj =>
    cases obj
    case reference rid =>
      have hd : dims_of_obj (getObject d' rid) = dims_of_obj (getObject d rid) := by
        unfold dims_of_obj
        rw [harr rid]
      simp only [hd]
    all_goals rfl

theorem stampResult_dims (doc : Document) (page_id : ObjectId) (n t : ℕ)
    (style : PaginationStyle) (pd : List (String × Object)) (scontent : List ℕ)
    (w h : ℚ)
    (hpage : getObject doc page_id = some (.dict pd))
    (hbound : ∀ p ∈ doc.objects, p.1.1 ≤ doc.max_id) :
    get_page_dimensions (stampResult doc page_id n t style pd scontent w h) page_id =
      get_page_dimensions doc page_id :=
  get_page_dimensions_congr doc
    (stampResult doc page_id n t style pd scontent w h) page_id pd
    (dictSet pd "Contents" (.reference (doc.max_id + 1, 0)))
    hpage
    (stampResult_page doc page_id n t style pd scontent w h hpage
      (page_id_ne_fresh doc page_id _ hpage hbound 0))
    (dictGet_dictSet_ne pd "Contents" "MediaBox" _ (by decide))
    (stampResult_asArray doc page_id n t style pd scontent w h hpage hbound)

/-- C9: for a page whose `Contents` entry is a direct reference to a content
stream, `inject_page_stamp` allocates a fresh stream object at
`(max_id + 1, 0)` whose content bytes are exactly the previous bytes followed
by `"\n"`, the operator fragment, and `"\n"`, with a `Length` entry equal to
that content's byte length; the page's `Contents` entry is repointed at the new
object while every other page-dictionary entry is unchanged, and the original
content stream object remains present (orphaned) at its old id.  Stamping the
page a second time appends the fragment again (both fragments end up in the new
content), so stamping is not idempotent. -/
theorem inject_page_stamp_frame (doc : Document) (page_id : ObjectId)
    (n t : ℕ) (style : PaginationStyle) (pd sdict : List (String × Object))
    (sid : ObjectId) (scontent : List ℕ)
    (hpage : getObject doc page_id = some (.dict pd))
    (hcont : dictGet pd "Contents" = some (.reference sid))
    (hstream : getObject doc sid = some (.stream sdict scontent))
    (hbound : ∀ p ∈ doc.objects, p.1.1 ≤ doc.max_id) :
    ∃ (w h : ℚ) (d1 d2 : Document),
      get_page_dimensions doc page_id = Except.ok (w, h) ∧
      inject_page_stamp doc page_id n t style = Except.ok d1 ∧
      getObject d1 page_id =
        some (.dict (dictSet pd "Contents" (.reference (doc.max_id + 1, 0)))) ∧
      getObject d1 (doc.max_id + 1, 0) =
        some (.stream
          [("Length", .integer ((stampedBytes scontent style n t w h).length : ℤ))]
          (stampedBytes scontent style n t w h)) ∧
      (∀ key, key ≠ "Contents" →
        dictGet (dictSet pd "Contents" (.reference (doc.max_id + 1, 0))) key =
          dictGet pd key) ∧
      getObject d1 sid = some (.stream sdict scontent) ∧
      inject_page_stamp d1 page_id n t style = Except.ok d2 ∧
      getObject d2 page_id =
        some (.dict (dictSet (dictSet pd "Contents" (.reference (doc.max_id + 1, 0)))
          "Contents" (.reference (doc.max_id + 2, 0)))) ∧
      getObject d2 (doc.max_id + 2, 0) =
        some (.stream
          [("Length", .integer
            ((stampedBytes (stampedBytes scontent style n t w h) style n t w h).length : ℤ))]
          (stampedBytes (stampedBytes scontent style n t w h) style n t w h)) := by
  obtain ⟨wh, hwh0⟩ := get_page_dimensions_ok doc page_id
  rcases wh with ⟨w, h⟩
  have hpne : page_id ≠ (doc.max_id + 1, 0) :=
    page_id_ne_fresh doc page_id _ hpage hbound 0
  have hsne : sid ≠ (doc.max_id + 1, 0) :=
    page_id_ne_fresh doc sid _ hstream hbound 0
  have hspne : sid ≠ page_id := by
    intro he
    rw [he, hpage] at hstream
    exact Object.noConfusion (Option.some.inj hstream)
  have hrun1 := inject_page_stamp_run doc page_id n t style pd sdict sid scontent w h
    hpage hcont hstream hbound hwh0
  have hpage1 := stampResult_page doc page_id n t style pd scontent w h hpage hpne
  have hcont1 : dictGet (dictSet pd "Contents" (Object.reference (doc.max_id + 1, 0)))
      "Contents" = some (Object.reference (doc.max_id + 1, 0)) :=
    dictGet_dictSet_self _ _ _
  have hstream1 := stampResult_new_stream doc page_id n t style pd scontent w h hpne
  have hbound1 := stampResult_bound doc page_id n t style pd scontent w h hbound
  have hwh1 : get_page_dimensions (stampResult doc page_id n t style pd scontent w h)
      page_id = Except.ok (w, h) :=
    (stampResult_dims doc page_id n t style pd scontent w h hpage hbound).trans hwh0
  have hrun2 := inject_page_stamp_run
    (stampResult doc page_id n t style pd scontent w h) page_id n t style
    (dictSet pd "Contents" (Object.reference (doc.max_id + 1, 0)))
    [("Length", Object.integer ((stampedBytes scontent style n t w h).length : ℤ))]
    (doc.max_id + 1, 0) (stampedBytes scontent style n t w h) w h
    hpage1 hcont1 hstream1 hbound1 hwh1
  have hpne1 : page_id ≠
      ((stampResult doc page_id n t style pd scontent w h).max_id + 1, 0) :=
    page_id_ne_fresh _ page_id _ hpage1 hbound1 0
  have hpage2 := stampResult_page (stampResult doc page_id n t style pd scontent w h)
    page_id n t style (dictSet pd "Contents" (Object.reference (doc.max_id + 1, 0)))
    (stampedBytes scontent style n t w h) w h hpage1 hpne1
  have hstream2 := stampResult_new_stream
    (stampResult doc page_id n t style pd scontent w h)
    page_id n t style (dictSet pd "Contents" (Object.reference (doc.max_id + 1, 0)))
    (stampedBytes scontent style n t w h) w h hpne1
  refine ⟨w, h, _, _, hwh0, hrun1, hpage1, hstream1,
    fun key hk => dictGet_dictSet_ne pd "Contents" key _ hk,
    (stampResult_other doc page_id n t style pd scontent w h sid hspne hsne).trans
      hstream,
    hrun2, ?_, ?_⟩
  · exact hpage2
  · exact hstream2

/-- A concrete two-object document: a page whose `Contents` references the
content stream at `(2, 0)`. -/
def stampDocW : Document :=
  { objects :=
      [((1, 0), .dict [("Type", .name "Page"), ("Contents", .reference (2, 0))]),
       ((2, 0), .stream [("Length", .integer 2)] [113, 81])],
    trailer := [("Root", .reference (3, 0))],
    max_id := 2 }

theorem inject_page_stamp_frame_witness :
    ∃ (w h : ℚ) (d1 d2 : Document),
      get_page_dimensions stampDocW (1, 0) = Except.ok (w, h) ∧
      inject_page_stamp stampDocW (1, 0) 2 9 PaginationStyle.default = Except.ok d1 ∧
      getObject d1 (1, 0) =
        some (.dict (dictSet [("Type", .name "Page"), ("Contents", .reference (2, 0))]
          "Contents" (.reference (stampDocW.max_id + 1, 0)))) ∧
      getObject d1 (stampDocW.max_id + 1, 0) =
        some (.stream
          [("Length", .integer
            ((stampedBytes [113, 81] PaginationStyle.default 2 9 w h).length : ℤ))]
          (stampedBytes [113, 81] PaginationStyle.default 2 9 w h)) ∧
      (∀ key, key ≠ "Contents" →
        dictGet (dictSet [("Type", .name "Page"), ("Contents", .reference (2, 0))]
          "Contents" (.reference (stampDocW.max_id + 1, 0))) key =
          dictGet [("Type", .name "Page"), ("Contents", .reference (2, 0))] key) ∧
      getObject d1 (2, 0) = some (.stream [("Length", .integer 2)] [113, 81]) ∧
      inject_page_stamp d1 (1, 0) 2 9 PaginationStyle.default = Except.ok d2 ∧
      getObject d2 (1, 0) =
        some (.dict (dictSet
          (dictSet [("Type", .name "Page"), ("Contents", .reference (2, 0))]
            "Contents" (.reference (stampDocW.max_id + 1, 0)))
          "Contents" (.reference (stampDocW.max_id + 2, 0)))) ∧
      getObject d2 (stampDocW.max_id + 2, 0) =
        some (.stream
          [("Length", .integer
            ((stampedBytes (stampedBytes [113, 81] PaginationStyle.default 2 9 w h)
              PaginationStyle.default 2 9 w h).length : ℤ))]
          (stampedBytes (stampedBytes [113, 81] PaginationStyle.default 2 9 w h)
            PaginationStyle.default 2 9 w h)) :=
  inject_page_stamp_frame stampDocW (1, 0) 2 9 PaginationStyle.default
    [("Type", .name "Page"), ("Contents", .reference (2, 0))]
    [("Length", .integer 2)] (2, 0) [113, 81]
    (by rfl) (by rfl) (by rfl) (by decide)

/-! ### C1: `merge_pdfs_simple` on single-page documents -/

/-- The well-formed page-tree shape that `lopdf` documents present: the
trailer's `Root` references a catalog, the catalog's `Pages` references the
page-tree root whose `Kids` are direct references to `Page`-typed leaf
dictionaries, with an integer `Count` equal to the number of kids. -/
def InvTree (d : Document) (rr pr : ObjectId) (cat pagesd : List (String × Object))
    (pids : List ObjectId) : Prop :=
  dictGet d.trailer "Root" = some (.reference rr) ∧
  getObject d rr = some (.dict cat) ∧
  dictGet cat "Pages" = some (.reference pr) ∧
  getObject d pr = some (.dict pagesd) ∧
  dictGet pagesd "Type" = some (.name "Pages") ∧
  dictGet pagesd "Kids" = some (.array (pids.map Object.reference)) ∧
  dictGet pagesd "Count" = some (.integer (pids.length : ℤ)) ∧
  pr ≠ rr ∧
  (∀ pid ∈ pids, ∃ pd, getObject d pid = some (.dict pd) ∧
    dictGet pd "Type" = some (.name "Page") ∧ pid ≠ pr)

/-- The map keys are pairwise distinct (every `BTreeMap` satisfies this). -/
def keysDistinct (d : Document) : Prop :=
  d.objects.Pairwise (fun p q => p.1 ≠ q.1)

/-- A loadable single-page document whose unique page is the object `q`. -/
def WFSingle (d : Document) (q : ObjectId) : Prop :=
  keysDistinct d ∧ ∃ rr pr cat pagesd, InvTree d rr pr cat pagesd [q]

/-- The object ids under which the pages of the merged documents end up, in
merge order: each document's page is cloned under its id shifted by
`maxObjNum` of the base accumulated so far, plus one. -/
def mergedPageIds (pg : Document → ObjectId) : Document → List Document → List ObjectId
  | _, [] => []
  | base, d :: rest =>
    shiftId (maxObjNum base) (pg d) :: mergedPageIds pg (mergeOne base d) rest

/-- The root page tree's `Count` entry, resolved through the trailer `Root`
and the catalog's `Pages` reference. -/
def rootPagesCount (d : Document) : Option ℤ :=
  match dictGet d.trailer "Root" with
  | some (.reference r) =>
    match getObject d r with
    | some (.dict cat) =>
      match dictGet cat "Pages" with
      | some (.reference p) =>
        match getObject d p with
        | some (.dict pagesd) =>
          match dictGet pagesd "Count" with
          | some (.integer c) => some c
          | _ => none
        | _ => none
      | _ => none
    | _ => none
  | _ => none

theorem maxFold_init_le (l : List (ObjectId × Object)) :
    ∀ a : ℕ, a ≤ l.foldl (fun acc p => Nat.max acc p.1.1) a := by
  induction l with
  | nil => intro a; exact le_refl a
  | cons p rest ih =>
    intro a
    exact le_trans (Nat.le_max_left a p.1.1) (ih (Nat.max a p.1.1))

theorem maxObjNum_bound (d : Document) : ∀ p ∈ d.objects, p.1.1 ≤ maxObjNum d := by
  unfold maxObjNum
  generalize h0 : (0 : ℕ) = a
  clear h0
  induction d.objects generalizing a with
  | nil => intro p hp; exact absurd hp (List.not_mem_nil p)
  | cons q rest ih =>
    intro p hp
    rcases List.mem_cons.mp hp with h1 | h1
    · subst h1
      exact le_trans (Nat.le_max_right a p.1.1) (maxFold_init_le rest _)
    · exact ih _ p h1

theorem present_le_max (d : Document) (X : ObjectId) (o : Object)
    (h : getObject d X = some o) : X.1 ≤ maxObjNum d := by
  have hm := lookupObj_mem d.objects X o ((getObject_eq_lookup d X).symm.trans h)
  exact maxObjNum_bound d (X, o) hm

theorem shiftId_ne_low (M : ℕ) (a X : ObjectId) (h : X.1 ≤ M) :
    shiftId M a ≠ X := by
  intro he
  have : (shiftId M a).1 = X.1 := by rw [he]
  unfold shiftId at this
  simp only at this
  omega

theorem shiftId_inj (M : ℕ) (a b : ObjectId) (h : shiftId M a = shiftId M b) :
    a = b := by
  unfold shiftId at h
  injection h with h1 h2
  have h3 : a.1 = b.1 := by omega
  exact Prod.ext h3 h2

theorem pagesFromNode_succ (d : Document) (fuel : ℕ) (id : ObjectId) :
    pagesFromNode d (fuel + 1) id =
      match getObject d id with
      | some (.dict dd) =>
        match dictGet dd "Type" with
        | some (.name "Page") => [id]
        | some (.name "Pages") =>
          match dictGet dd "Kids" with
          | some (.array kids) =>
            kids.foldr
              (fun k acc =>
                (match k with
                 | .reference kid => pagesFromNode d fuel kid
                 | _ => []) ++ acc)
              []
          | _ => []
        | _ => []
      | _ => [] := rfl

theorem pagesFromNode_leaf (d : Document) (fuel : ℕ) (pid : ObjectId)
    (pd : List (String × Object))
    (h1 : getObject d pid = some (.dict pd))
    (h2 : dictGet pd "Type" = some (.name "Page")) :
    pagesFromNode d (fuel + 1) pid = [pid] := by
  rw [pagesFromNode_succ]
  simp only [h1, h2]

theorem pagesFoldr (d : Document) (fuel : ℕ) (pids : List ObjectId)
    (h : ∀ pid ∈ pids, pagesFromNode d fuel pid = [pid]) :
    (pids.map Object.reference).foldr
      (fun k acc =>
        (match k with
         | .reference kid => pagesFromNode d fuel kid
         | _ => []) ++ acc)
      [] = pids := by
  induction pids with
  | nil => rfl
  | cons pid rest ih =>
    rw [List.map_cons, List.foldr_cons]
    rw [ih (fun p hp => h p (List.mem_cons_of_mem _ hp))]
    rw [show (match Object.reference pid with
         | .reference kid => pagesFromNode d fuel kid
         | _ => ([] : List ObjectId)) = pagesFromNode d fuel pid from rfl]
    rw [h pid (List.mem_cons_self _ _)]
    rfl

theorem pageList_of_inv (d : Document) (rr pr : ObjectId)
    (cat pagesd : List (String × Object)) (pids : List ObjectId)
    (hinv : InvTree d rr pr cat pagesd pids) (hlen : 1 ≤ d.objects.length) :
    pageList d = pids := by
  obtain ⟨hroot, hrc, hcp, hpg, htype, hkids, _, _, hleaf⟩ := hinv
  unfold pageList
  simp only [hroot, hrc, hcp]
  obtain ⟨f, hf⟩ : ∃ f, d.objects.length = f + 1 := ⟨d.objects.length - 1, by omega⟩
  rw [hf, pagesFromNode_succ]
  simp only [hpg, htype, hkids]
  exact pagesFoldr d (f + 1) pids (fun pid hp => by
    obtain ⟨pd, h1, h2, _⟩ := hleaf pid hp
    exact pagesFromNode_leaf d f pid pd h1 h2)

theorem cloneFold_fst (M : ℕ) (l : List (ObjectId × Object)) :
    ∀ (acc : List (ObjectId × ObjectId)) (b : Document),
      (l.foldl (cloneStep M) (acc, b)).1 =
        acc ++ l.map (fun p => (p.1, shiftId M p.1)) := by
  induction l with
  | nil => intro acc b; simp
  | cons p rest ih =>
    intro acc b
    rw [List.foldl_cons]
    rw [show cloneStep M (acc, b) p =
      (acc ++ [(p.1, shiftId M p.1)],
       { b with objects := mapInsert b.objects (shiftId M p.1) p.2 }) from rfl]
    rw [ih]
    simp

theorem cloneFold_trailer (M : ℕ) (l : List (ObjectId × Object)) :
    ∀ (acc : List (ObjectId × ObjectId)) (b : Document),
      (l.foldl (cloneStep M) (acc, b)).2.trailer = b.trailer := by
  induction l with
  | nil => intro acc b; rfl
  | cons p rest ih =>
    intro acc b
    rw [List.foldl_cons]
    exact ih _ _

theorem cloneFold_lookup_other (M : ℕ) (l : List (ObjectId × Object)) :
    ∀ (acc : List (ObjectId × ObjectId)) (b : Document) (X : ObjectId),
      (∀ p ∈ l, shiftId M p.1 ≠ X) →
      getObject (l.foldl (cloneStep M) (acc, b)).2 X = getObject b X := by
  induction l with
  | nil => intro acc b X _; rfl
  | cons p rest ih =>
    intro acc b X hne
    rw [List.foldl_cons]
    rw [ih _ _ X (fun p' hp' => hne p' (List.mem_cons_of_mem _ hp'))]
    rw [getObject_eq_lookup, getObject_eq_lookup]
    show lookupObj (mapInsert b.objects (shiftId M p.1) p.2) X = _
    exact lookupObj_mapInsert_ne _ _ _ _
      (fun he => hne p (List.mem_cons_self _ _) he.symm)

theorem cloneFold_lookup_mem (M : ℕ) (l : List (ObjectId × Object)) :
    ∀ (acc : List (ObjectId × ObjectId)) (b : Document) (q : ObjectId) (v : Object),
      l.Pairwise (fun p p' => p.1 ≠ p'.1) → (q, v) ∈ l →
      getObject (l.foldl (cloneStep M) (acc, b)).2 (shiftId M q) = some v := by
  induction l with
  | nil => intro _ _ _ _ _ hm; exact absurd hm (List.not_mem_nil _)
  | cons p rest ih =>
    intro acc b q v hpw hm
    rw [List.foldl_cons]
    rcases List.mem_cons.mp hm with h1 | h1
    · rw [cloneFold_lookup_other M rest _ _ _ (fun p' hp' he => by
        have hne := (List.pairwise_cons.mp hpw).1 p' hp'
        rw [← h1] at hne
        exact hne (shiftId_inj M p'.1 q he).symm)]
      rw [getObject_eq_lookup]
      show lookupObj (mapInsert b.objects (shiftId M p.1) p.2) (shiftId M q) = _
      rw [← h1]
      exact lookupObj_mapInsert_self _ _ _
    · exact ih _ _ q v (List.pairwise_cons.mp hpw).2 h1

theorem setObject_trailer (d : Document) (id : ObjectId) (o : Object) :
    (setObject d id o).trailer = d.trailer := rfl

theorem pushKid_trailer (b : Document) (nid : ObjectId) :
    (pushKid b nid).trailer = b.trailer := by
  unfold pushKid
  repeat' split
  all_goals rfl

theorem refStep_trailer (m : List (ObjectId × ObjectId)) (sp : List ObjectId)
    (b : Document) (pr : ObjectId × ObjectId) :
    (refStep m sp b pr).trailer = b.trailer := by
  unfold refStep
  cases hg : getObject b pr.2 with
  | none =>
    simp only [hg]
    split
    · rw [pushKid_trailer]
    · rfl
  | some obj =>
    simp only [hg]
    split
    · rw [pushKid_trailer, setObject_trailer]
    · rw [setObject_trailer]

theorem refFold_trailer (m : List (ObjectId × ObjectId))
    (idm : List (ObjectId × ObjectId)) (sp : List ObjectId) :
    ∀ b : Document, (m.foldl (refStep idm sp) b).trailer = b.trailer := by
  induction m with
  | nil => intro b; rfl
  | cons pr rest ih =>
    intro b
    rw [List.foldl_cons, ih, refStep_trailer]

theorem refStep_silent (m : List (ObjectId × ObjectId)) (sp : List ObjectId)
    (b : Document) (pr : ObjectId × ObjectId) (X : ObjectId)
    (hc : sp.contains pr.1 = false) (hx : X ≠ pr.2) :
    getObject (refStep m sp b pr) X = getObject b X := by
  unfold refStep
  rw [if_neg (by intro hcc; rw [hc] at hcc; exact Bool.false_ne_true hcc)]
  cases hg : getObject b pr.2 with
  | none => simp only [hg]
  | some obj =>
    simp only [hg]
    exact getObject_setObject_ne b pr.2 X _ hx

theorem refFold_silent (idm : List (ObjectId × ObjectId)) (sp : List ObjectId)
    (m : List (ObjectId × ObjectId)) :
    ∀ (b : Document) (X : ObjectId),
      (∀ pr ∈ m, sp.contains pr.1 = false) → (∀ pr ∈ m, X ≠ pr.2) →
      getObject (m.foldl (refStep idm sp) b) X = getObject b X := by
  induction m with
  | nil => intro b X _ _; rfl
  | cons pr rest ih =>
    intro b X hc hx
    rw [List.foldl_cons]
    rw [ih _ X (fun p hp => hc p (List.mem_cons_of_mem _ hp))
      (fun p hp => hx p (List.mem_cons_of_mem _ hp))]
    exact refStep_silent idm sp b pr X (hc pr (List.mem_cons_self _ _))
      (hx pr (List.mem_cons_self _ _))

theorem dictGet_updateRefsEntries (m : List (ObjectId × ObjectId))
    (e : List (String × Object)) (k : String) :
    dictGet (updateRefsEntries m e) k = (dictGet e k).map (update_references m) := by
  induction e with
  | nil => rfl
  | cons p rest ih =>
    rcases p with ⟨k0, v0⟩
    rw [updateRefsEntries, dictGet_cons, dictGet_cons]
    by_cases h : k0 = k
    · rw [if_pos h, if_pos h]
      rfl
    · rw [if_neg h, if_neg h]
      exact ih

theorem pushKid_eq (b : Document) (nid rr pr : ObjectId)
    (cat pagesd : List (String × Object)) (kids : List Object) (cnt : ℤ)
    (hroot : dictGet b.trailer "Root" = some (.reference rr))
    (hrc : getObject b rr = some (.dict cat))
    (hcp : dictGet cat "Pages" = some (.reference pr))
    (hpg : getObject b pr = some (.dict pagesd))
    (hkids : dictGet pagesd "Kids" = some (.array kids))
    (hcnt : dictGet pagesd "Count" = some (.integer cnt)) :
    pushKid b nid = setObject b pr (.dict
      (dictSet (dictSet pagesd "Kids" (.array (kids ++ [.reference nid])))
        "Count" (.integer (cnt + 1)))) := by
  unfold pushKid
  simp only [hroot, hrc, hcp, hpg, hkids,
    dictGet_dictSet_ne pagesd "Kids" "Count" _ (by decide), hcnt]

theorem contains_single_false (q x : ObjectId) (h : q ≠ x) :
    [q].contains x = false := by
  simp [List.contains]
  exact fun he => h he.symm

theorem contains_single_true (q : ObjectId) : [q].contains q = true := by
  simp [List.contains]

theorem mergeOne_trailer (base doc : Document) :
    (mergeOne base doc).trailer = base.trailer := by
  show ((doc.objects.foldl (cloneStep (maxObjNum base)) ([], base)).1.foldl
      (refStep (doc.objects.foldl (cloneStep (maxObjNum base)) ([], base)).1
        (pageList doc))
      (doc.objects.foldl (cloneStep (maxObjNum base)) ([], base)).2).trailer =
    base.trailer
  rw [refFold_trailer, cloneFold_trailer]

theorem refStep_push (m : List (ObjectId × ObjectId)) (q : ObjectId) (b : Document)
    (pr2 : ObjectId) (obj : Object) (hg : getObject b pr2 = some obj) :
    refStep m [q] b (q, pr2) =
      pushKid (setObject b pr2 (update_references m obj)) pr2 := by
  unfold refStep
  simp only [hg, contains_single_true q, if_true]

theorem InvTree_transport (d d' : Document) (rr pr : ObjectId)
    (cat pagesd : List (String × Object)) (pids : List ObjectId)
    (hinv : InvTree d rr pr cat pagesd pids)
    (htr : d'.trailer = d.trailer)
    (hlook : ∀ X : ObjectId, X.1 ≤ maxObjNum d → getObject d' X = getObject d X) :
    InvTree d' rr pr cat pagesd pids := by
  obtain ⟨hroot, hrc, hcp, hpg, htype, hkids, hcnt, hprr, hleaf⟩ := hinv
  refine ⟨?_, ?_, hcp, ?_, htype, hkids, hcnt, hprr, ?_⟩
  · rw [htr]; exact hroot
  · rw [hlook rr (present_le_max d rr _ hrc)]; exact hrc
  · rw [hlook pr (present_le_max d pr _ hpg)]; exact hpg
  · intro pid hp
    obtain ⟨pd, h1, h2, h3⟩ := hleaf pid hp
    exact ⟨pd, by rw [hlook pid (present_le_max d pid _ h1)]; exact h1, h2, h3⟩

theorem refRun_inv (M : ℕ) (IDM : List (ObjectId × ObjectId))
    (s t2 : List (ObjectId × Object)) (q : ObjectId)
    (qpd : List (String × Object)) (B0 : Document) (rr pr : ObjectId)
    (cat pagesd : List (String × Object)) (pids : List ObjectId)
    (hinv0 : InvTree B0 rr pr cat pagesd pids)
    (hsq0 : getObject B0 (shiftId M q) = some (Object.dict qpd))
    (hqt : dictGet qpd "Type" = some (.name "Page"))
    (hrrle : rr.1 ≤ M) (hprle : pr.1 ≤ M)
    (hpidle : ∀ pid ∈ pids, pid.1 ≤ M)
    (hkeyS : ∀ p ∈ s, p.1 ≠ q) (hkeyT : ∀ p ∈ t2, q ≠ p.1) :
    ∃ pagesd', InvTree
      ((s.map (fun p => (p.1, shiftId M p.1)) ++
          (q, shiftId M q) :: t2.map (fun p => (p.1, shiftId M p.1))).foldl
        (refStep IDM [q]) B0)
      rr pr cat pagesd' (pids ++ [shiftId M q]) := by
  obtain ⟨hroot, hrc, hcp, hpg, htype, hkids, hcnt, hprr, hleaf⟩ := hinv0
  rw [List.foldl_append, List.foldl_cons]
  have hB1at : ∀ X : ObjectId, (∀ p ∈ s, X ≠ shiftId M p.1) →
      getObject ((s.map (fun p => (p.1, shiftId M p.1))).foldl (refStep IDM [q]) B0) X =
        getObject B0 X := by
    intro X hX
    refine refFold_silent IDM [q] _ B0 X ?_ ?_
    · intro pr' hpr'
      obtain ⟨p, hp, hfp⟩ := List.mem_map.mp hpr'
      rw [← hfp]
      exact contains_single_false q p.1 (fun he => hkeyS p hp he.symm)
    · intro pr' hpr'
      obtain ⟨p, hp, hfp⟩ := List.mem_map.mp hpr'
      rw [← hfp]
      exact hX p hp
  have hB1tr : ((s.map (fun p => (p.1, shiftId M p.1))).foldl (refStep IDM [q]) B0).trailer
      = B0.trailer := refFold_trailer _ IDM [q] B0
  set B1 := (s.map (fun p => (p.1, shiftId M p.1))).foldl (refStep IDM [q]) B0 with hB1def
  have hlow1 : ∀ X : ObjectId, X.1 ≤ M → getObject B1 X = getObject B0 X :=
    fun X hX => hB1at X (fun p _ => (shiftId_ne_low M p.1 X hX).symm)
  have hB1sq : getObject B1 (shiftId M q) = some (Object.dict qpd) :=
    (hB1at _ (fun p hp he => hkeyS p hp (shiftId_inj M q p.1 he).symm)).trans hsq0
  have hstep : refStep IDM [q] B1 (q, shiftId M q) =
      pushKid (setObject B1 (shiftId M q)
        (update_references IDM (Object.dict qpd))) (shiftId M q) :=
    refStep_push IDM q B1 (shiftId M q) _ hB1sq
  set B1u := setObject B1 (shiftId M q) (update_references IDM (Object.dict qpd))
    with hB1udef
  have hsqne_rr : rr ≠ shiftId M q := (shiftId_ne_low M q rr hrrle).symm
  have hsqne_pr : pr ≠ shiftId M q := (shiftId_ne_low M q pr hprle).symm
  have h1tr : B1u.trailer = B0.trailer := by
    rw [hB1udef, setObject_trailer]
    exact hB1tr
  have h1rr : getObject B1u rr = some (Object.dict cat) := by
    rw [hB1udef, getObject_setObject_ne _ _ _ _ hsqne_rr, hlow1 rr hrrle]
    exact hrc
  have h1pr : getObject B1u pr = some (Object.dict pagesd) := by
    rw [hB1udef, getObject_setObject_ne _ _ _ _ hsqne_pr, hlow1 pr hprle]
    exact hpg
  have h1sq : getObject B1u (shiftId M q) =
      some (Object.dict (updateRefsEntries IDM qpd)) := by
    rw [hB1udef, getObject_setObject_self, hB1sq]
    rfl
  have hpush : pushKid B1u (shiftId M q) = setObject B1u pr (Object.dict
      (dictSet (dictSet pagesd "Kids"
        (.array (pids.map Object.reference ++ [.reference (shiftId M q)])))
        "Count" (.integer ((pids.length : ℤ) + 1)))) :=
    pushKid_eq B1u (shiftId M q) rr pr cat pagesd _ _
      (by rw [h1tr]; exact hroot) h1rr hcp h1pr hkids hcnt
  set B2 := setObject B1u pr (Object.dict
      (dictSet (dictSet pagesd "Kids"
        (.array (pids.map Object.reference ++ [.reference (shiftId M q)])))
        "Count" (.integer ((pids.length : ℤ) + 1)))) with hB2def
  have h2tr : B2.trailer = B0.trailer := by
    rw [hB2def, setObject_trailer]
    exact h1tr
  have h2rr : getObject B2 rr = some (Object.dict cat) := by
    rw [hB2def, getObject_setObject_ne _ _ _ _ (Ne.symm hprr)]
    exact h1rr
  have h2pr : getObject B2 pr = some (Object.dict
      (dictSet (dictSet pagesd "Kids"
        (.array (pids.map Object.reference ++ [.reference (shiftId M q)])))
        "Count" (.integer ((pids.length : ℤ) + 1)))) := by
    rw [hB2def, getObject_setObject_self, h1pr]
    rfl
  have h2sq : getObject B2 (shiftId M q) =
      some (Object.dict (updateRefsEntries IDM qpd)) := by
    rw [hB2def, getObject_setObject_ne _ _ _ _ (shiftId_ne_low M q pr hprle)]
    exact h1sq
  have h2pid : ∀ pid ∈ pids, ∃ pd, getObject B2 pid = some (.dict pd) ∧
      dictGet pd "Type" = some (.name "Page") ∧ pid ≠ pr := by
    intro pid hp
    obtain ⟨pd, hg, ht, hne⟩ := hleaf pid hp
    refine ⟨pd, ?_, ht, hne⟩
    rw [hB2def, getObject_setObject_ne _ _ _ _ hne, hB1udef,
      getObject_setObject_ne _ _ _ _ ((shiftId_ne_low M q pid (hpidle pid hp)).symm),
      hlow1 pid (hpidle pid hp)]
    exact hg
  have hpostat : ∀ X : ObjectId, (∀ p ∈ t2, X ≠ shiftId M p.1) →
      getObject ((t2.map (fun p => (p.1, shiftId M p.1))).foldl (refStep IDM [q]) B2) X
        = getObject B2 X := by
    intro X hX
    refine refFold_silent IDM [q] _ B2 X ?_ ?_
    · intro pr' hpr'
      obtain ⟨p, hp, hfp⟩ := List.mem_map.mp hpr'
      rw [← hfp]
      exact contains_single_false q p.1 (hkeyT p hp)
    · intro pr' hpr'
      obtain ⟨p, hp, hfp⟩ := List.mem_map.mp hpr'
      rw [← hfp]
      exact hX p hp
  have hposttr : ((t2.map (fun p => (p.1, shiftId M p.1))).foldl
      (refStep IDM [q]) B2).trailer = B0.trailer := by
    rw [refFold_trailer]
    exact h2tr
  rw [hstep, hpush]
  refine ⟨dictSet (dictSet pagesd "Kids"
      (.array (pids.map Object.reference ++ [.reference (shiftId M q)])))
      "Count" (.integer ((pids.length : ℤ) + 1)), ?_, ?_, hcp, ?_, ?_, ?_, ?_, hprr, ?_⟩
  · rw [hposttr]
    exact hroot
  · rw [hpostat rr (fun p _ => (shiftId_ne_low M p.1 rr hrrle).symm)]
    exact h2rr
  · rw [hpostat pr (fun p _ => (shiftId_ne_low M p.1 pr hprle).symm)]
    exact h2pr
  · rw [dictGet_dictSet_ne _ _ _ _ (by decide), dictGet_dictSet_ne _ _ _ _ (by decide)]
    exact htype
  · rw [dictGet_dictSet_ne _ _ _ _ (by decide), dictGet_dictSet_self, List.map_append]
    rfl
  · rw [dictGet_dictSet_self]
    have hlen : (((pids ++ [shiftId M q]).length : ℕ) : ℤ) = (pids.length : ℤ) + 1 := by
      rw [List.length_append, List.length_singleton]
      push_cast
      ring
    rw [hlen]
  · intro pid hp
    rcases List.mem_append.mp hp with h1 | h1
    · obtain ⟨pd, hg, ht, hne⟩ := h2pid pid h1
      refine ⟨pd, ?_, ht, hne⟩
      rw [hpostat pid (fun p _ => (shiftId_ne_low M p.1 pid (hpidle pid h1)).symm)]
      exact hg
    · have hpid : pid = shiftId M q := List.mem_singleton.mp h1
      subst hpid
      refine ⟨updateRefsEntries IDM qpd, ?_, ?_, shiftId_ne_low M q pr hprle⟩
      · rw [hpostat _ (fun p hp' he => hkeyT p hp' (shiftId_inj M q p.1 he))]
        exact h2sq
      · rw [dictGet_updateRefsEntries, hqt]
        rfl

theorem mergeOne_inv (base doc : Document) (rr pr : ObjectId)
    (cat pagesd : List (String × Object)) (pids : List ObjectId) (q : ObjectId)
    (hinv : InvTree base rr pr cat pagesd pids)
    (hwfd : WFSingle doc q) :
    ∃ pagesd', InvTree (mergeOne base doc) rr pr cat pagesd'
      (pids ++ [shiftId (maxObjNum base) q]) := by
  obtain ⟨hdk, rrd, prd, catd, pagesdd, hdinv⟩ := hwfd
  have hsp : pageList doc = [q] :=
    pageList_of_inv doc rrd prd catd pagesdd [q] hdinv
      (List.length_pos_of_mem (lookupObj_mem _ _ _
        ((getObject_eq_lookup doc rrd).symm.trans hdinv.2.1)))
  obtain ⟨qpd, hqd, hqt, _⟩ := hdinv.2.2.2.2.2.2.2.2 q (List.mem_cons_self _ _)
  have hrrle : rr.1 ≤ maxObjNum base := present_le_max base rr _ hinv.2.1
  have hprle : pr.1 ≤ maxObjNum base := present_le_max base pr _ hinv.2.2.2.1
  have hpidle : ∀ pid ∈ pids, pid.1 ≤ maxObjNum base := by
    intro pid hp
    obtain ⟨pd, h1, _, _⟩ := hinv.2.2.2.2.2.2.2.2 pid hp
    exact present_le_max base pid _ h1
  have hqmem : (q, Object.dict qpd) ∈ doc.objects :=
    lookupObj_mem _ _ _ ((getObject_eq_lookup doc q).symm.trans hqd)
  obtain ⟨s, t2, hsplit⟩ := List.append_of_mem hqmem
  have hdk2 : (s ++ (q, Object.dict qpd) :: t2).Pairwise
      (fun p p' : ObjectId × Object => p.1 ≠ p'.1) := hsplit ▸ hdk
  have hpwa := List.pairwise_append.mp hdk2
  have hkeyS : ∀ p ∈ s, p.1 ≠ q := fun p hp =>
    hpwa.2.2 p hp _ (List.mem_cons_self _ _)
  have hkeyT : ∀ p ∈ t2, q ≠ p.1 := fun p hp =>
    (List.pairwise_cons.mp hpwa.2.1).1 p hp
  have hinv0 : InvTree
      ((s ++ (q, Object.dict qpd) :: t2).foldl
        (cloneStep (maxObjNum base)) ([], base)).2 rr pr cat pagesd pids :=
    InvTree_transport base _ rr pr cat pagesd pids hinv
      (cloneFold_trailer (maxObjNum base) _ [] base)
      (fun X hX => cloneFold_lookup_other (maxObjNum base) _ [] base X
        (fun p _ => shiftId_ne_low (maxObjNum base) p.1 X hX))
  have hsq0 : getObject
      ((s ++ (q, Object.dict qpd) :: t2).foldl
        (cloneStep (maxObjNum base)) ([], base)).2 (shiftId (maxObjNum base) q) =
      some (Object.dict qpd) :=
    cloneFold_lookup_mem (maxObjNum base) _ [] base q _ hdk2
      (List.mem_append.mpr (Or.inr (List.mem_cons_self _ _)))
  have hmerge : mergeOne base doc =
      ((s.map (fun p => (p.1, shiftId (maxObjNum base) p.1)) ++
          (q, shiftId (maxObjNum base) q) ::
            t2.map (fun p => (p.1, shiftId (maxObjNum base) p.1))).foldl
        (refStep (s.map (fun p => (p.1, shiftId (maxObjNum base) p.1)) ++
          (q, shiftId (maxObjNum base) q) ::
            t2.map (fun p => (p.1, shiftId (maxObjNum base) p.1))) [q])
        ((s ++ (q, Object.dict qpd) :: t2).foldl
          (cloneStep (maxObjNum base)) ([], base)).2) := by
    show ((doc.objects.foldl (cloneStep (maxObjNum base)) ([], base)).1.foldl
        (refStep (doc.objects.foldl (cloneStep (maxObjNum base)) ([], base)).1
          (pageList doc))
        (doc.objects.foldl (cloneStep (maxObjNum base)) ([], base)).2) = _
    rw [hsp, cloneFold_fst, List.nil_append, hsplit, List.map_append, List.map_cons]
  rw [hmerge]
  exact refRun_inv (maxObjNum base) _ s t2 q qpd _ rr pr cat pagesd pids
    hinv0 hsq0 hqt hrrle hprle hpidle hkeyS hkeyT

theorem mergedPageIds_length (pg : Document → ObjectId) :
    ∀ (rest : List Document) (base : Document),
      (mergedPageIds pg base rest).length = rest.length := by
  intro rest
  induction rest with
  | nil => intro base; rfl
  | cons d rest ih =>
    intro base
    rw [mergedPageIds, List.length_cons, List.length_cons, ih]

theorem sum_map_pageLens (l : List Document) (h : ∀ d ∈ l, (pageList d).length = 1) :
    (l.map (fun d => (pageList d).length)).sum = l.length := by
  induction l with
  | nil => rfl
  | cons d rest ih =>
    rw [List.map_cons, List.sum_cons, h d (List.mem_cons_self _ _),
      ih (fun d' hd' => h d' (List.mem_cons_of_mem _ hd')), List.length_cons]
    omega

theorem mergeFold_inv (pg : Document → ObjectId) :
    ∀ (rest : List Document) (base : Document) (rr pr : ObjectId)
      (cat pagesd : List (String × Object)) (pids : List ObjectId),
      InvTree base rr pr cat pagesd pids →
      (∀ d ∈ rest, WFSingle d (pg d)) →
      ∃ pagesd', InvTree (rest.foldl mergeOne base) rr pr cat pagesd'
        (pids ++ mergedPageIds pg base rest) := by
  intro rest
  induction rest with
  | nil =>
    intro base rr pr cat pagesd pids hinv _
    exact ⟨pagesd, by rw [mergedPageIds, List.append_nil]; exact hinv⟩
  | cons d rest ih =>
    intro base rr pr cat pagesd pids hinv hwf
    rw [List.foldl_cons]
    obtain ⟨pagesd1, hinv1⟩ := mergeOne_inv base d rr pr cat pagesd pids (pg d)
      hinv (hwf d (List.mem_cons_self _ _))
    obtain ⟨pagesd2, hinv2⟩ := ih (mergeOne base d) rr pr cat pagesd1
      (pids ++ [shiftId (maxObjNum base) (pg d)]) hinv1
      (fun d' hd' => hwf d' (List.mem_cons_of_mem _ hd'))
    refine ⟨pagesd2, ?_⟩
    rw [mergedPageIds]
    rw [show pids ++ shiftId (maxObjNum base) (pg d) ::
        mergedPageIds pg (mergeOne base d) rest =
      (pids ++ [shiftId (maxObjNum base) (pg d)]) ++
        mergedPageIds pg (mergeOne base d) rest from
      (List.append_assoc pids [shiftId (maxObjNum base) (pg d)] _).symm]
    exact hinv2

/-- C1: for a list of `k` loadable single-page documents (here: documents in
the well-formed single-page shape `WFSingle`, whose unique page object is
`pg d`), `merge_pdfs_simple` succeeds and produces a merged document with
exactly `k` pages, in input order — the base document's page first, then each
subsequent document's page (cloned under its shifted id) in input order — the
root page tree's `Count` equals `k`, and the returned value, the sum of the
input documents' page counts, also equals `k`. -/
theorem merge_pdfs_simple_single_pages (base : Document) (rest : List Document)
    (pg : Document → ObjectId)
    (hwf : ∀ d ∈ base :: rest, WFSingle d (pg d)) :
    ∃ merged : Document,
      merge_pdfs_simple (base :: rest) =
        Except.ok (merged, (base :: rest).length) ∧
      pageList merged = pg base :: mergedPageIds pg base rest ∧
      (pageList merged).length = (base :: rest).length ∧
      rootPagesCount merged = some (((base :: rest).length : ℕ) : ℤ) ∧
      ((base :: rest).map (fun d => (pageList d).length)).sum =
        (base :: rest).length := by
  obtain ⟨hdkb, rr, pr, cat, pagesd, hbinv⟩ := hwf base (List.mem_cons_self _ _)
  obtain ⟨pagesd', hminv⟩ := mergeFold_inv pg rest base rr pr cat pagesd
    [pg base] hbinv (fun d hd => hwf d (List.mem_cons_of_mem _ hd))
  have hone : ∀ d ∈ base :: rest, (pageList d).length = 1 := by
    intro d hd
    obtain ⟨hdk, rr', pr', cat', pagesd2, hdinv⟩ := hwf d hd
    rw [pageList_of_inv d rr' pr' cat' pagesd2 [pg d] hdinv
      (List.length_pos_of_mem (lookupObj_mem _ _ _
        ((getObject_eq_lookup d rr').symm.trans hdinv.2.1)))]
    rfl
  have hsumlen : ((base :: rest).map (fun d => (pageList d).length)).sum =
      (base :: rest).length := sum_map_pageLens _ hone
  have hpLm : pageList (rest.foldl mergeOne base) =
      [pg base] ++ mergedPageIds pg base rest :=
    pageList_of_inv _ rr pr cat pagesd' _ hminv
      (List.length_pos_of_mem (lookupObj_mem _ _ _
        ((getObject_eq_lookup _ rr).symm.trans hminv.2.1)))
  have hL : ([pg base] ++ mergedPageIds pg base rest).length =
      (base :: rest).length := by
    rw [List.length_append, mergedPageIds_length, List.length_singleton,
      List.length_cons]
    omega
  have hcount : rootPagesCount (rest.foldl mergeOne base) =
      some ((([pg base] ++ mergedPageIds pg base rest).length : ℕ) : ℤ) := by
    unfold rootPagesCount
    simp only [hminv.1, hminv.2.1, hminv.2.2.1, hminv.2.2.2.1,
      hminv.2.2.2.2.2.2.1]
  refine ⟨rest.foldl mergeOne base, ?_, ?_, ?_, ?_, hsumlen⟩
  · rw [show merge_pdfs_simple (base :: rest) =
      Except.ok (rest.foldl mergeOne base,
        ((base :: rest).map (fun d => (pageList d).length)).sum) from rfl]
    rw [hsumlen]
  · exact hpLm
  · rw [hpLm, hL]
  · rw [hcount, hL]

/-- A concrete well-formed single-page document: catalog at `(1, 0)`, page
tree at `(2, 0)`, one page at `(3, 0)`. -/
def mergeDocW : Document :=
  { objects :=
      [((1, 0), .dict [("Type", .name "Catalog"), ("Pages", .reference (2, 0))]),
       ((2, 0), .dict [("Type", .name "Pages"),
          ("Kids", .array [.reference (3, 0)]), ("Count", .integer 1)]),
       ((3, 0), .dict [("Type", .name "Page"), ("Parent", .reference (2, 0))])],
    trailer := [("Root", .reference (1, 0))],
    max_id := 3 }

theorem mergeDocW_wf : WFSingle mergeDocW (3, 0) := by
  refine ⟨by unfold keysDistinct; decide, (1, 0), (2, 0),
    [("Type", .name "Catalog"), ("Pages", .reference (2, 0))],
    [("Type", .name "Pages"), ("Kids", .array [.reference (3, 0)]),
      ("Count", .integer 1)],
    rfl, rfl, rfl, rfl, rfl, rfl, rfl, by decide, ?_⟩
  intro pid hp
  rw [List.mem_singleton.mp hp]
  exact ⟨[("Type", .name "Page"), ("Parent", .reference (2, 0))], rfl, rfl,
    by decide⟩

theorem merge_pdfs_simple_single_pages_witness :
    ∃ merged : Document,
      merge_pdfs_simple [mergeDocW, mergeDocW] =
        Except.ok (merged, ([mergeDocW, mergeDocW] : List Document).length) ∧
      pageList merged =
        (3, 0) :: mergedPageIds (fun _ => ((3, 0) : ObjectId)) mergeDocW [mergeDocW] ∧
      (pageList merged).length = ([mergeDocW, mergeDocW] : List Document).length ∧
      rootPagesCount merged =
        some (((([mergeDocW, mergeDocW] : List Document).length : ℕ) : ℤ)) ∧
      (([mergeDocW, mergeDocW] : List Document).map
        (fun d => (pageList d).length)).sum =
        ([mergeDocW, mergeDocW] : List Document).length :=
  merge_pdfs_simple_single_pages mergeDocW [mergeDocW] (fun _ => (3, 0))
    (fun d hd => by
      rcases List.mem_cons.mp hd with h | h
      · rw [h]; exact mergeDocW_wf
      · rw [List.mem_singleton.mp h]; exact mergeDocW_wf)
